import Mathlib

/-!
# MapAnnotation.js: session state, event handlers and exports

A shallow embedding of the React component `MapAnnotation` of
`src/MapAnnotation.js`.  The three `useState` cells (`image`, `labels`,
`imgSize`) form one explicit `SessionState`; every handler is a function from
the state before the event to the state after it.  What the browser supplies
(the chosen file, the pointer position, the canvas rectangle, the answer of
`prompt`, the answer of `window.confirm`) is an explicit argument.

Numbers: a finite Number (an IEEE 754 binary64 value) is the rational it
denotes.  `clientX`, `clientY`, `rect.left`, `rect.top` are such rationals;
`a - b` is the exact difference rounded to the nearest binary64 value, ties to
the even significand (`numberSubtract`); `Math.round` is the nearest integer,
ties towards `+∞`.  Image dimensions are naturals, stored coordinates are
integers.
-/

set_option autoImplicit false

namespace MapAnnotation

/-! ## Data model -/

/-- Label record `{ name: labelName, x, y }` built at line 52. -/
structure Label where
  name : String
  x : Int
  y : Int
deriving DecidableEq, Repr

/-- Value of the `imgSize` cell: `{ width, height }`. -/
structure ImgSize where
  width : Nat
  height : Nat
deriving DecidableEq, Repr

/-- Result of `FileReader.readAsDataURL`: the text
`data:<media type>;base64,<payload>`. -/
structure DataURL where
  mediaType : String
  payload : String
deriving DecidableEq, Repr

/-- Text of a data URL, the string kept in the `image` cell. -/
def DataURL.text (u : DataURL) : String :=
  "data:" ++ u.mediaType ++ ";base64," ++ u.payload

/-- Cells of the component: `image` (initially `null`), `labels` (initially
`[]`), `imgSize` (initially `{ width: 0, height: 0 }`). -/
structure SessionState where
  image : Option DataURL
  labels : List Label
  imgSize : ImgSize
deriving DecidableEq, Repr

/-- State right after mounting (lines 4-6). -/
def initialState : SessionState :=
  { image := none, labels := [], imgSize := { width := 0, height := 0 } }

/-- JavaScript truthiness of a string: false exactly for the string of
length zero. -/
def truthyString (s : String) : Bool :=
  s.length != 0

/-- JavaScript truthiness of the `image` cell (`null` or a string). -/
def truthyImage : Option DataURL → Bool
  | none => false
  | some u => truthyString u.text

/-! ## Upload (lines 10-25) -/

/-- Entry `event.target.files[0]`: its declared media type, the payload the
reader encodes, and the intrinsic size the browser decodes from it (`none`
when decoding fails, in which case `img.onload` never fires). -/
structure File where
  type : String
  payload : String
  decoded : Option ImgSize
deriving DecidableEq, Repr

/-- Data URL the reader hands to `reader.onload` for a file. -/
def File.dataURL (f : File) : DataURL :=
  { mediaType := f.type, payload := f.payload }

/-- Test of line 12 on the media type. -/
def acceptedType (t : String) : Bool :=
  t == "image/png" || t == "image/jpeg"

/-- Body of `img.onload` (lines 18-20): the three setters, applied to
whatever state is current when the decode completes. -/
def imgOnload (result : DataURL) (width height : Nat) (_s : SessionState) : SessionState :=
  { imgSize := { width := width, height := height }
    image := some result
    labels := [] }

/-- Handler `handleUpload` followed by the completion of the read and decode
it starts, when there is one. -/
def handleUpload (s : SessionState) (file : Option File) : SessionState :=
  match file with
  | none => s
  | some f =>
    if acceptedType f.type then
      match f.decoded with
      | some sz => imgOnload f.dataURL sz.width sz.height s
      | none => s
    else s

/-! ## Click to add (lines 41-53) -/

/-- Fields of the click event that the handler reads. -/
structure MouseEvent where
  clientX : ℚ
  clientY : ℚ
deriving DecidableEq

/-- Fields of `canvas.getBoundingClientRect()` that the handler reads. -/
structure DOMRect where
  left : ℚ
  top : ℚ
deriving DecidableEq

/-- Function `Math.round`: the integer closest to `q`, the larger one on a
tie. -/
def mathRound (q : ℚ) : Int :=
  Rat.floor (q + 1 / 2)

/-- Rounding of a rational to the nearest integer, a tie going to the even
one. -/
def roundHalfEven (q : ℚ) : Int :=
  if q - Rat.floor q < 1 / 2 then Rat.floor q
  else if 1 / 2 < q - Rat.floor q then Rat.floor q + 1
  else if Rat.floor q % 2 = 0 then Rat.floor q
  else Rat.floor q + 1

/-- Exponent of the unit in the last place of the binary64 values around `q`:
the significand has 53 bits, and below `2 ^ (-1022)` the subnormal spacing
`2 ^ (-1074)` applies. -/
def ulpExponent (q : ℚ) : Int :=
  max (Int.log 2 |q|) (-1022) - 52

/-- The binary64 value nearest to `q`, ties to the even significand.  Results
of magnitude `2 ^ 1024` and more (which IEEE 754 turns into an infinity) are
outside this embedding. -/
def roundDouble (q : ℚ) : ℚ :=
  if q = 0 then 0
  else (roundHalfEven (q / 2 ^ ulpExponent q) : ℚ) * 2 ^ ulpExponent q

/-- The operator `-` on two finite Numbers (`Number::subtract`). -/
def numberSubtract (a b : ℚ) : ℚ :=
  roundDouble (a - b)

/-- Handler `handleImageClick`; `answer` is what `prompt` returns, `none` for
the `null` of a cancelled prompt. -/
def handleImageClick (s : SessionState) (event : MouseEvent) (rect : DOMRect)
    (answer : Option String) : SessionState :=
  if !truthyImage s.image then s
  else
    let x := mathRound (numberSubtract event.clientX rect.left)
    let y := mathRound (numberSubtract event.clientY rect.top)
    match answer with
    | none => s
    | some labelName =>
      if !truthyString labelName then s
      else { s with labels := s.labels ++ [{ name := labelName, x := x, y := y }] }

/-! ## Click to delete (lines 55-59) -/

/-- Method `Array.prototype.filter` with a callback reading element and
index; `i` is the index of the head. -/
def filterFrom {α : Type} (p : α → Nat → Bool) : Nat → List α → List α
  | _, [] => []
  | i, a :: as => if p a i then a :: filterFrom p (i + 1) as else filterFrom p (i + 1) as

/-- Call `xs.filter(p)`. -/
def jsFilter {α : Type} (p : α → Nat → Bool) (xs : List α) : List α :=
  filterFrom p 0 xs

/-- Handler `handleLabelClick`; `confirmed` is what `window.confirm`
returns. -/
def handleLabelClick (s : SessionState) (index : Nat) (confirmed : Bool) : SessionState :=
  if confirmed then { s with labels := jsFilter (fun _ i => i != index) s.labels }
  else s

/-! ## Raster export (lines 61-84) -/

/-- Calls made on the 2D context inside `img.onload` of
`downloadLabeledImage`.  An `arc` is the full circle (start angle `0`, end
angle `2 * Math.PI`). -/
inductive CanvasOp where
  | drawImage (src : DataURL) (dx dy : Int) (dw dh : Nat)
  | setFillStyle (colour : String)
  | setFont (font : String)
  | beginPath
  | arc (x y : Int) (radius : Nat)
  | fill
  | fillText (text : String) (x y : Int)
deriving DecidableEq, Repr

/-- Body of the `labels.forEach` callback (lines 73-76). -/
def drawLabel (label : Label) : List CanvasOp :=
  [ .beginPath, .arc label.x label.y 5, .fill, .fillText label.name (label.x + 8) (label.y - 8) ]

/-- File handed to the browser by a raster export: the `download` name and
the drawing whose encoding is the `href`. -/
structure RasterDownload where
  download : String
  drawing : List CanvasOp
deriving DecidableEq, Repr

/-- Function `downloadLabeledImage`: `none` is the early return of line 62. -/
def downloadLabeledImage (s : SessionState) : Option RasterDownload :=
  match s.image with
  | none => none
  | some src =>
    if !truthyString src.text then none
    else
      some
        { download := "labeled_image.png"
          drawing :=
            [ .drawImage src 0 0 s.imgSize.width s.imgSize.height
            , .setFillStyle "red"
            , .setFont "16px Arial" ]
              ++ (s.labels.map drawLabel).flatten }

/-! ## Structured export (lines 86-97) -/

/-- Values `JSON.stringify` meets in this program: integers, strings, arrays
and objects with their members in property order. -/
inductive Json where
  | num (n : Int)
  | str (s : String)
  | arr (items : List Json)
  | obj (members : List (String × Json))

/-- Lower-case hexadecimal digit of `n < 16`. -/
def hexDigit (n : Nat) : Char :=
  if n < 10 then Char.ofNat (48 + n) else Char.ofNat (87 + n)

/-- Escape `\uXXXX` of a code unit. -/
def unicodeEscape (c : Char) : String :=
  "\\u" ++ String.mk [hexDigit (c.toNat / 4096 % 16), hexDigit (c.toNat / 256 % 16),
    hexDigit (c.toNat / 16 % 16), hexDigit (c.toNat % 16)]

/-- One character inside `QuoteJSONString`. -/
def quoteChar (c : Char) : String :=
  if c = '\x08' then "\\b"
  else if c = '\t' then "\\t"
  else if c = '\n' then "\\n"
  else if c = '\x0c' then "\\f"
  else if c = '\r' then "\\r"
  else if c = '"' then "\\\""
  else if c = '\\' then "\\\\"
  else if c.toNat < 32 then unicodeEscape c
  else String.singleton c

/-- Operation `QuoteJSONString` of ECMAScript. -/
def quoteJSONString (s : String) : String :=
  "\"" ++ String.join (s.data.map quoteChar) ++ "\""

/-- Decimal text of an integer Number. -/
def numberToString (n : Int) : String :=
  toString n

/-- Concatenation of `parts` with `sep` between neighbours. -/
def joinWith (sep : String) : List String → String
  | [] => ""
  | [a] => a
  | a :: b :: rest => a ++ sep ++ joinWith sep (b :: rest)

mutual
/-- Operation `SerializeJSONProperty` with `SerializeJSONObject` and
`SerializeJSONArray`: `gap` is the indentation unit, `indent` the current
indentation. -/
def serialize (gap indent : String) : Json → String
  | .num n => numberToString n
  | .str s => quoteJSONString s
  | .arr [] => "[]"
  | .arr (x :: xs) =>
    let stepback := indent
    let indent := indent ++ gap
    let parts := serializeItems gap indent (x :: xs)
    if gap = "" then "[" ++ joinWith "," parts ++ "]"
    else "[\n" ++ indent ++ joinWith (",\n" ++ indent) parts ++ "\n" ++ stepback ++ "]"
  | .obj [] => "\x7b\x7d"
  | .obj (m :: ms) =>
    let stepback := indent
    let indent := indent ++ gap
    let parts := serializeMembers gap indent (m :: ms)
    if gap = "" then "\x7b" ++ joinWith "," parts ++ "\x7d"
    else "\x7b\n" ++ indent ++ joinWith (",\n" ++ indent) parts ++ "\n" ++ stepback ++ "\x7d"
/-- Serialised elements of an array. -/
def serializeItems (gap indent : String) : List Json → List String
  | [] => []
  | x :: xs => serialize gap indent x :: serializeItems gap indent xs
/-- Serialised members of an object. -/
def serializeMembers (gap indent : String) : List (String × Json) → List String
  | [] => []
  | (k, v) :: ms =>
    (quoteJSONString k ++ (if gap = "" then ":" else ": ") ++ serialize gap indent v)
      :: serializeMembers gap indent ms
end

/-- Call `JSON.stringify(v, null, space)` with a numeric `space`. -/
def stringify (v : Json) (space : Nat) : String :=
  serialize (String.mk (List.replicate (min space 10) ' ')) "" v

/-- The `imgSize` object as a JSON value. -/
def ImgSize.toJson (d : ImgSize) : Json :=
  .obj [("width", .num d.width), ("height", .num d.height)]

/-- A label object as a JSON value. -/
def Label.toJson (l : Label) : Json :=
  .obj [("name", .str l.name), ("x", .num l.x), ("y", .num l.y)]

/-- Object literal of lines 87-90. -/
def exportDocument (s : SessionState) : Json :=
  .obj [("imageDimensions", s.imgSize.toJson), ("labels", .arr (s.labels.map Label.toJson))]

/-- File handed to the browser by a structured export. -/
structure JsonDownload where
  download : String
  type : String
  text : String
deriving DecidableEq, Repr

/-- Function `downloadJSON`. -/
def downloadJSON (s : SessionState) : JsonDownload :=
  let json := stringify (exportDocument s) 2
  { download := "labels.json", type := "application/json", text := json }

/-! ## Reading JSON text

A reader for the JSON texts this program writes: integers, strings, arrays
and objects, with whitespace between tokens. -/

/-- Value of a decimal digit. -/
def digitVal (c : Char) : Option Nat :=
  if 48 ≤ c.toNat ∧ c.toNat ≤ 57 then some (c.toNat - 48) else none

/-- Reads the longest run of decimal digits, continuing the value `acc`. -/
def parseDigits : List Char → Nat → Nat × List Char
  | [], acc => (acc, [])
  | c :: cs, acc =>
    match digitVal c with
    | some d => parseDigits cs (acc * 10 + d)
    | none => (acc, c :: cs)

/-- Reads a non-empty run of decimal digits. -/
def parseNat : List Char → Option (Nat × List Char)
  | [] => none
  | c :: cs =>
    match digitVal c with
    | some d => some (parseDigits cs d)
    | none => none

/-- Reads an integer: an optional minus sign and decimal digits. -/
def parseNumber : List Char → Option (Int × List Char)
  | [] => none
  | c :: cs =>
    if c = '-' then (parseNat cs).map (fun p => (-(p.1 : Int), p.2))
    else (parseNat (c :: cs)).map (fun p => ((p.1 : Int), p.2))

/-- The text does not go on with a decimal digit. -/
def noDigitAhead : List Char → Prop
  | [] => True
  | c :: _ => digitVal c = none

/-- Value of a hexadecimal digit. -/
def hexVal (c : Char) : Option Nat :=
  if 48 ≤ c.toNat ∧ c.toNat ≤ 57 then some (c.toNat - 48)
  else if 97 ≤ c.toNat ∧ c.toNat ≤ 102 then some (c.toNat - 87)
  else if 65 ≤ c.toNat ∧ c.toNat ≤ 70 then some (c.toNat - 55)
  else none

/-- Character denoted by a two-character escape `\e`. -/
def unescape (e : Char) : Option Char :=
  if e = '"' then some '"'
  else if e = '\\' then some '\\'
  else if e = '/' then some '/'
  else if e = 'b' then some '\x08'
  else if e = 'f' then some '\x0c'
  else if e = 'n' then some '\n'
  else if e = 'r' then some '\r'
  else if e = 't' then some '\t'
  else none

/-- Where the string reader stands: between characters, after a backslash, or
inside a `\u` escape with `count` digits to go and `value` read so far. -/
inductive StringMode where
  | normal
  | escaped
  | hex (count value : Nat)

/-- Reads the body of a JSON string up to the closing quote; `acc` holds the
characters read so far, last first. -/
def parseStringBody : List Char → StringMode → List Char → Option (String × List Char)
  | [], _, _ => none
  | c :: cs, .normal, acc =>
    if c = '"' then some (String.mk acc.reverse, cs)
    else if c = '\\' then parseStringBody cs .escaped acc
    else if c.toNat < 32 then none
    else parseStringBody cs .normal (c :: acc)
  | c :: cs, .escaped, acc =>
    if c = 'u' then parseStringBody cs (.hex 4 0) acc
    else
      match unescape c with
      | some ch => parseStringBody cs .normal (ch :: acc)
      | none => none
  | _ :: _, .hex 0 _, _ => none
  | c :: cs, .hex (k + 1) v, acc =>
    match hexVal c with
    | none => none
    | some d =>
      if k = 0 then
        if 55296 ≤ v * 16 + d ∧ v * 16 + d ≤ 57343 then none
        else parseStringBody cs .normal (Char.ofNat (v * 16 + d) :: acc)
      else parseStringBody cs (.hex k (v * 16 + d)) acc

/-- JSON whitespace. -/
def isWs (c : Char) : Bool :=
  c = ' ' || c = '\n' || c = '\r' || c = '\t'

/-- Drops leading whitespace. -/
def skipWs : List Char → List Char
  | [] => []
  | c :: cs => if isWs c then skipWs cs else c :: cs

/-- The text after a leading `c`, when it starts with `c`. -/
def headIs (c : Char) : List Char → Option (List Char)
  | [] => none
  | d :: cs => if d = c then some cs else none

mutual
/-- Reads one JSON value (an integer, a string, an array or an object) and
returns it with the unread text; `fuel` bounds the nesting and the number of
elements read. -/
def parseValue : Nat → List Char → Option (Json × List Char)
  | 0, _ => none
  | fuel + 1, cs =>
    match skipWs cs with
    | [] => none
    | c :: rest =>
      if c = '"' then
        (parseStringBody rest .normal []).map (fun p => (Json.str p.1, p.2))
      else if c = '[' then
        match headIs ']' (skipWs rest) with
        | some rest' => some (Json.arr [], rest')
        | none => (parseItems fuel rest).map (fun p => (Json.arr p.1, p.2))
      else if c = '\x7b' then
        match headIs '\x7d' (skipWs rest) with
        | some rest' => some (Json.obj [], rest')
        | none => (parseMembers fuel rest).map (fun p => (Json.obj p.1, p.2))
      else (parseNumber (c :: rest)).map (fun p => (Json.num p.1, p.2))
/-- Reads the elements of a non-empty array up to the closing bracket. -/
def parseItems : Nat → List Char → Option (List Json × List Char)
  | 0, _ => none
  | fuel + 1, cs =>
    match parseValue fuel cs with
    | none => none
    | some (v, rest) =>
      match skipWs rest with
      | [] => none
      | c :: rest' =>
        if c = ',' then (parseItems fuel rest').map (fun p => (v :: p.1, p.2))
        else if c = ']' then some ([v], rest')
        else none
/-- Reads the members of a non-empty object up to the closing brace. -/
def parseMembers : Nat → List Char → Option (List (String × Json) × List Char)
  | 0, _ => none
  | fuel + 1, cs =>
    match headIs '"' (skipWs cs) with
    | none => none
    | some r0 =>
      match parseStringBody r0 .normal [] with
      | none => none
      | some (k, r1) =>
        match headIs ':' (skipWs r1) with
        | none => none
        | some r2 =>
          match parseValue fuel r2 with
          | none => none
          | some (v, r3) =>
            match skipWs r3 with
            | [] => none
            | c :: r4 =>
              if c = ',' then (parseMembers fuel r4).map (fun p => ((k, v) :: p.1, p.2))
              else if c = '\x7d' then some ([(k, v)], r4)
              else none
end

/-- Reads a whole text as one JSON value. -/
def parseJson (fuel : Nat) (text : String) : Option Json :=
  match parseValue fuel text.data with
  | none => none
  | some (v, rest) => if skipWs rest = [] then some v else none

mutual
/-- Fuel that reading a value takes. -/
def Json.need : Json → Nat
  | .num _ => 1
  | .str _ => 1
  | .arr xs => 1 + needItems xs
  | .obj ms => 1 + needMembers ms
/-- Fuel that reading a list of elements takes. -/
def needItems : List Json → Nat
  | [] => 0
  | x :: xs => 1 + x.need + needItems xs
/-- Fuel that reading a list of members takes. -/
def needMembers : List (String × Json) → Nat
  | [] => 0
  | (_, v) :: ms => 1 + v.need + needMembers ms
end


/-- Every character of the text is whitespace. -/
def allWs (w : List Char) : Prop :=
  ∀ c ∈ w, isWs c = true

/-- First characters a serialised value can have: not whitespace, not a
closing bracket or brace. -/
def startsValue (c : Char) : Prop :=
  isWs c = false ∧ c ≠ ']' ∧ c ≠ '\x7d'

/-! ## Export buttons (lines 108-137) -/

/-- Prop `disabled={!image}` of the first button. -/
def rasterButtonDisabled (s : SessionState) : Bool :=
  !truthyImage s.image

/-- Prop `disabled={!labels.length}` of the second button. -/
def jsonButtonDisabled (s : SessionState) : Bool :=
  !(s.labels.length != 0)

/-- A click on the first button: a disabled button dispatches nothing. -/
def clickRasterButton (s : SessionState) : Option RasterDownload :=
  if rasterButtonDisabled s then none else downloadLabeledImage s

/-- A click on the second button: a disabled button dispatches nothing. -/
def clickJsonButton (s : SessionState) : Option JsonDownload :=
  if jsonButtonDisabled s then none else some (downloadJSON s)

/-! ## Sequences of events -/

/-- The canvas box: the canvas is given the size `imgSize` (lines 34-35) and
is shown unscaled, so a click lands on it exactly when its offset from the
top-left corner of `rect` lies in `[0, width) × [0, height)`. -/
def inHitRegion (s : SessionState) (event : MouseEvent) (rect : DOMRect) : Prop :=
  0 ≤ event.clientX - rect.left ∧ event.clientX - rect.left < (s.imgSize.width : ℚ) ∧
    0 ≤ event.clientY - rect.top ∧ event.clientY - rect.top < (s.imgSize.height : ℚ)

/-- One user event with what the browser answers. -/
inductive Event where
  | upload (file : Option File)
  | canvasClick (event : MouseEvent) (rect : DOMRect) (answer : Option String)
  | labelClick (index : Nat) (confirmed : Bool)

/-- The handler bound to an event. -/
def step (s : SessionState) : Event → SessionState
  | .upload file => handleUpload s file
  | .canvasClick event rect answer => handleImageClick s event rect answer
  | .labelClick index confirmed => handleLabelClick s index confirmed

/-- State after a sequence of events. -/
def run (s : SessionState) (events : List Event) : SessionState :=
  events.foldl step s

/-- Both dimensions are in the range of `img.width` and `img.height`, which
are unsigned 32-bit integers. -/
def ImgSize.inRange (d : ImgSize) : Prop :=
  d.width < 2 ^ 32 ∧ d.height < 2 ^ 32

/-- What the browser can deliver for one event in state `s`: a canvas click
lands on the canvas as it is sized then, and a decoded image has dimensions
in range. -/
def Event.admissible (s : SessionState) : Event → Prop
  | .canvasClick event rect _ => inHitRegion s event rect
  | .upload (some f) => ∀ sz, f.decoded = some sz → sz.inRange
  | _ => True

/-- Every event of the sequence is admissible in the state it meets. -/
def admissible : SessionState → List Event → Prop
  | _, [] => True
  | s, e :: es => e.admissible s ∧ admissible (step s e) es

/-- A canvas click together with the name typed into the prompt. -/
structure Click where
  event : MouseEvent
  rect : DOMRect
  name : String

/-- The object `{ name: labelName, x, y }` of line 52 for a click. -/
def Click.label (c : Click) : Label :=
  { name := c.name
    x := mathRound (numberSubtract c.event.clientX c.rect.left)
    y := mathRound (numberSubtract c.event.clientY c.rect.top) }

/-- State after a sequence of canvas clicks, each answered with its name. -/
def addAll (s : SessionState) (clicks : List Click) : SessionState :=
  clicks.foldl (fun st c => handleImageClick st c.event c.rect (some c.name)) s

/-- A label lies in the closed box `[0, width] × [0, height]`. -/
def Label.withinClosed (d : ImgSize) (l : Label) : Prop :=
  0 ≤ l.x ∧ l.x ≤ (d.width : Int) ∧ 0 ≤ l.y ∧ l.y ≤ (d.height : Int)

/-- A label lies in the half-open box `[0, width) × [0, height)`. -/
def Label.withinImage (d : ImgSize) (l : Label) : Prop :=
  0 ≤ l.x ∧ l.x < (d.width : Int) ∧ 0 ≤ l.y ∧ l.y < (d.height : Int)

end MapAnnotation

/-! ## Auxiliary facts -/

namespace MapAnnotation

theorem truthyString_iff (t : String) : truthyString t = true ↔ t ≠ "" := by
  unfold truthyString
  rw [bne_iff_ne, Ne, Ne, String.length, List.length_eq_zero]
  constructor
  · intro h e
    exact h (by rw [e])
  · intro h e
    exact h (String.ext e)

theorem truthyString_text (u : DataURL) : truthyString u.text = true := by
  unfold truthyString DataURL.text
  rw [bne_iff_ne]
  simp only [String.length_append]
  have : "data:".length = 5 := by decide
  omega

theorem truthyImage_eq_isSome (img : Option DataURL) : truthyImage img = img.isSome := by
  cases img with
  | none => rfl
  | some u => simp [truthyImage, truthyString_text]

theorem truthyImage_iff (img : Option DataURL) : truthyImage img = true ↔ img ≠ none := by
  rw [truthyImage_eq_isSome]
  cases img <;> simp

/-! ### Filtering by index -/

theorem filterFrom_above {α : Type} (k : Nat) (xs : List α) :
    ∀ n, k < n → filterFrom (fun _ j => j != k) n xs = xs := by
  induction xs with
  | nil => intro n _; rfl
  | cons a as ih =>
    intro n hn
    have hne : (n != k) = true := by rw [bne_iff_ne]; omega
    simp only [filterFrom, hne, if_true]
    rw [ih (n + 1) (by omega)]

theorem filterFrom_eraseIdx {α : Type} (xs : List α) :
    ∀ n i, filterFrom (fun _ j => j != n + i) n xs = xs.eraseIdx i := by
  induction xs with
  | nil => intro n i; rfl
  | cons a as ih =>
    intro n i
    cases i with
    | zero =>
      have hne : (n != n + 0) = false := by simp
      simp only [filterFrom, hne, List.eraseIdx_cons_zero]
      exact filterFrom_above (n + 0) as (n + 1) (by omega)
    | succ i =>
      have hne : (n != n + (i + 1)) = true := by rw [bne_iff_ne]; omega
      simp only [filterFrom, hne, if_true, List.eraseIdx_cons_succ]
      have h := ih (n + 1) i
      rw [show n + 1 + i = n + (i + 1) by omega] at h
      rw [h]

theorem jsFilter_ne_eq_eraseIdx {α : Type} (xs : List α) (i : Nat) :
    jsFilter (fun _ j => j != i) xs = xs.eraseIdx i := by
  have h := filterFrom_eraseIdx xs 0 i
  rw [Nat.zero_add] at h
  exact h

theorem handleLabelClick_labels (s : SessionState) (i : Nat) :
    (handleLabelClick s i true).labels = s.labels.eraseIdx i := by
  simp [handleLabelClick, jsFilter_ne_eq_eraseIdx]

/-! ### Adding a label -/

theorem handleImageClick_add (s : SessionState) (event : MouseEvent) (rect : DOMRect)
    (name : String) (himg : s.image ≠ none) (hname : name ≠ "") :
    handleImageClick s event rect (some name) =
      { s with labels := s.labels ++ [{ name := name
                                        x := mathRound (numberSubtract event.clientX rect.left)
                                        y := mathRound (numberSubtract event.clientY rect.top) }] } := by
  have h1 : truthyImage s.image = true := (truthyImage_iff _).2 himg
  have h2 : truthyString name = true := (truthyString_iff _).2 hname
  simp [handleImageClick, h1, h2]

theorem mathRound_le (q : ℚ) : ((mathRound q : Int) : ℚ) ≤ q + 1 / 2 := by
  unfold mathRound
  exact Int.floor_le (q + 1 / 2)

theorem mathRound_gt (q : ℚ) : q - 1 / 2 < ((mathRound q : Int) : ℚ) := by
  unfold mathRound
  have h := Int.lt_floor_add_one (q + 1 / 2)
  have e : Rat.floor (q + 1 / 2) = ⌊q + 1 / 2⌋ := rfl
  rw [e]
  linarith

end MapAnnotation

/-! ## Upload -/

namespace MapAnnotation

/-- Claim C4: from every session state, `handleUpload` with no file, or with a
file whose media type is neither `image/png` nor `image/jpeg`, returns the
state it was given: `image`, `labels` and `imgSize` are all unchanged. -/
theorem handleUpload_rejected_unchanged (s : SessionState) (file : Option File)
    (hrej : ∀ f, file = some f → f.type ≠ "image/png" ∧ f.type ≠ "image/jpeg") :
    handleUpload s file = s ∧
      (handleUpload s file).image = s.image ∧
      (handleUpload s file).labels = s.labels ∧
      (handleUpload s file).imgSize = s.imgSize := by
  have h : handleUpload s file = s := by
    cases file with
    | none => rfl
    | some f =>
      obtain ⟨h1, h2⟩ := hrej f rfl
      simp [handleUpload, acceptedType, h1, h2]
  rw [h]
  exact ⟨rfl, rfl, rfl, rfl⟩

theorem handleUpload_rejected_unchanged_witness :
    handleUpload
        { image := some { mediaType := "image/png", payload := "AAAA" }
          labels := [{ name := "A", x := 10, y := 20 }]
          imgSize := { width := 100, height := 50 } }
        (some { type := "image/gif", payload := "R0lG", decoded := some { width := 7, height := 9 } })
      = { image := some { mediaType := "image/png", payload := "AAAA" }
          labels := [{ name := "A", x := 10, y := 20 }]
          imgSize := { width := 100, height := 50 } } :=
  (handleUpload_rejected_unchanged _ _ (by
    intro f hf
    cases hf
    exact ⟨by decide, by decide⟩)).1

/-- Claim C5: from every prior session state, an upload of an accepted media
type that decodes to width `w` and height `h` ends in a state whose label
list is empty, whose image is the data URL of the new file and whose
`imgSize` is `w` by `h`; the same holds for the load continuation run on any
state that is current when the decode completes. -/
theorem handleUpload_accepted_resets (s : SessionState) (f : File) (w h : Nat)
    (hacc : f.type = "image/png" ∨ f.type = "image/jpeg")
    (hdec : f.decoded = some { width := w, height := h }) :
    (handleUpload s (some f)).labels = [] ∧
      (handleUpload s (some f)).image = some f.dataURL ∧
      (handleUpload s (some f)).imgSize = { width := w, height := h } ∧
      ∀ t : SessionState,
        imgOnload f.dataURL w h t =
          { image := some f.dataURL, labels := [], imgSize := { width := w, height := h } } := by
  have ha : acceptedType f.type = true := by
    rcases hacc with e | e <;> simp [acceptedType, e]
  refine ⟨?_, ?_, ?_, fun t => rfl⟩ <;> simp [handleUpload, ha, hdec, imgOnload]

theorem handleUpload_accepted_resets_witness :
    (handleUpload
        { image := some { mediaType := "image/png", payload := "AAAA" }
          labels := [{ name := "A", x := 10, y := 20 }, { name := "B", x := 3, y := 4 }]
          imgSize := { width := 100, height := 50 } }
        (some { type := "image/jpeg", payload := "BBBB", decoded := some { width := 640, height := 480 } })).labels
      = [] :=
  (handleUpload_accepted_resets _
    { type := "image/jpeg", payload := "BBBB", decoded := some { width := 640, height := 480 } }
    640 480 (Or.inr rfl) rfl).1

/-! ## Label store -/

/-- Claim C6: for every label list, every in-range index `i` and a granted
confirmation, `handleLabelClick i` yields the list with exactly the element
at position `i` removed: the length drops by one, every position before `i`
holds what it held, every position from `i` on holds what was one place
further, so the result is the first `i` elements followed by those after
position `i`; `image` and `imgSize` are untouched. -/
theorem handleLabelClick_confirmed_removes (s : SessionState) (i : Nat)
    (hi : i < s.labels.length) :
    (handleLabelClick s i true).labels.length = s.labels.length - 1 ∧
      (∀ j, j < i → (handleLabelClick s i true).labels[j]? = s.labels[j]?) ∧
      (∀ j, i ≤ j → (handleLabelClick s i true).labels[j]? = s.labels[j + 1]?) ∧
      (handleLabelClick s i true).labels = s.labels.take i ++ s.labels.drop (i + 1) ∧
      (handleLabelClick s i true).image = s.image ∧
      (handleLabelClick s i true).imgSize = s.imgSize := by
  rw [handleLabelClick_labels]
  refine ⟨List.length_eraseIdx_of_lt hi, ?_, ?_, List.eraseIdx_eq_take_drop_succ _ _, rfl, rfl⟩
  · intro j hj
    rw [List.getElem?_eraseIdx, if_pos hj]
  · intro j hj
    rw [List.getElem?_eraseIdx, if_neg (by omega)]

theorem handleLabelClick_confirmed_removes_witness :
    (handleLabelClick
        { image := some { mediaType := "image/png", payload := "AAAA" }
          labels := [{ name := "A", x := 1, y := 2 }, { name := "B", x := 3, y := 4 },
                     { name := "C", x := 5, y := 6 }]
          imgSize := { width := 100, height := 50 } } 1 true).labels
      = [{ name := "A", x := 1, y := 2 }, { name := "C", x := 5, y := 6 }] :=
  (handleLabelClick_confirmed_removes
    { image := some { mediaType := "image/png", payload := "AAAA" }
      labels := [{ name := "A", x := 1, y := 2 }, { name := "B", x := 3, y := 4 },
                 { name := "C", x := 5, y := 6 }]
      imgSize := { width := 100, height := 50 } } 1 (by decide)).2.2.2.1

/-- Claim C7: in a state with an image loaded, a canvas click answered with a
non-empty name, followed at once by a confirmed `handleLabelClick` at the
last index of the new list, gives back the state before the click, so the
label list is again exactly the one before the add. -/
theorem add_then_remove_last_restores (s : SessionState) (event : MouseEvent) (rect : DOMRect)
    (name : String) (himg : s.image ≠ none) (hname : name ≠ "") :
    handleLabelClick (handleImageClick s event rect (some name))
        ((handleImageClick s event rect (some name)).labels.length - 1) true = s ∧
      (handleLabelClick (handleImageClick s event rect (some name))
        ((handleImageClick s event rect (some name)).labels.length - 1) true).labels = s.labels := by
  have key : handleLabelClick (handleImageClick s event rect (some name))
      ((handleImageClick s event rect (some name)).labels.length - 1) true = s := by
    rw [handleImageClick_add s event rect name himg hname]
    simp only [handleLabelClick, if_true, jsFilter_ne_eq_eraseIdx, List.length_append,
      List.length_singleton, Nat.add_sub_cancel]
    rw [List.eraseIdx_append_of_length_le (Nat.le_refl _), Nat.sub_self]
    simp
  rw [key]
  exact ⟨rfl, rfl⟩

theorem add_then_remove_last_restores_witness :
    (handleLabelClick
        (handleImageClick
          { image := some { mediaType := "image/png", payload := "AAAA" }
            labels := [{ name := "A", x := 1, y := 2 }]
            imgSize := { width := 100, height := 50 } }
          { clientX := 150, clientY := 200 } { left := 50, top := 80 } (some "B"))
        ((handleImageClick
          { image := some { mediaType := "image/png", payload := "AAAA" }
            labels := [{ name := "A", x := 1, y := 2 }]
            imgSize := { width := 100, height := 50 } }
          { clientX := 150, clientY := 200 } { left := 50, top := 80 } (some "B")).labels.length - 1)
        true).labels
      = [{ name := "A", x := 1, y := 2 }] :=
  (add_then_remove_last_restores
    { image := some { mediaType := "image/png", payload := "AAAA" }
      labels := [{ name := "A", x := 1, y := 2 }]
      imgSize := { width := 100, height := 50 } }
    { clientX := 150, clientY := 200 } { left := 50, top := 80 } "B" (by simp) (by decide)).2

/-- Claim C10: from every session state, a canvas click whose name prompt is
cancelled (`null`) or answered with the empty string, and a click on a label
whose confirmation is declined, return the state they were given: no label
is added or removed and `image`, `labels`, `imgSize` are unchanged. -/
theorem cancelled_gate_unchanged (s : SessionState) (event : MouseEvent) (rect : DOMRect)
    (index : Nat) :
    handleImageClick s event rect none = s ∧
      handleImageClick s event rect (some "") = s ∧
      handleLabelClick s index false = s := by
  refine ⟨?_, ?_, ?_⟩
  · unfold handleImageClick
    split <;> rfl
  · unfold handleImageClick
    split
    · rfl
    · simp [truthyString]
  · simp [handleLabelClick]

end MapAnnotation

/-! ## Reading back the exported text -/

namespace MapAnnotation

theorem digitVal_digitChar (d : Nat) (h : d < 10) : digitVal (Nat.digitChar d) = some d := by
  interval_cases d <;> decide

theorem parseDigits_stop (rest : List Char) (acc : Nat) (h : noDigitAhead rest) :
    parseDigits rest acc = (acc, rest) := by
  cases rest with
  | nil => rfl
  | cons c cs => simp only [noDigitAhead] at h; simp [parseDigits, h]

theorem toDigitsCore_spec (fuel : Nat) :
    ∀ (n : Nat) (ds : List Char), n < fuel →
      ∃ D : List Char, Nat.toDigitsCore 10 fuel n ds = D ++ ds ∧
        ∃ d0 : Nat, ∃ D0 : List Char, D = Nat.digitChar d0 :: D0 ∧ d0 < 10 ∧
          ∀ (rest : List Char), parseDigits (D0 ++ rest) d0 = parseDigits rest n := by
  induction fuel with
  | zero => intro n ds h; omega
  | succ fuel ih =>
    intro n ds h
    simp only [Nat.toDigitsCore]
    by_cases h0 : n / 10 = 0
    · rw [if_pos h0]
      have hn : n < 10 := by omega
      refine ⟨[Nat.digitChar (n % 10)], rfl, n % 10, [], rfl, by omega, ?_⟩
      intro rest
      rw [Nat.mod_eq_of_lt hn]
      rfl
    · rw [if_neg h0]
      obtain ⟨D, hD, d0, D0, hD0, hd0, hval⟩ := ih (n / 10) (Nat.digitChar (n % 10) :: ds) (by omega)
      refine ⟨D ++ [Nat.digitChar (n % 10)], by rw [hD]; simp, d0, D0 ++ [Nat.digitChar (n % 10)],
        by rw [hD0]; rfl, hd0, ?_⟩
      intro rest
      rw [List.append_assoc, hval]
      simp only [List.singleton_append, parseDigits, digitVal_digitChar _ (Nat.mod_lt n (by norm_num))]
      rw [Nat.div_add_mod' n 10]
      rfl

theorem parseNat_repr (n : Nat) (rest : List Char) (h : noDigitAhead rest) :
    parseNat ((Nat.repr n).data ++ rest) = some (n, rest) := by
  obtain ⟨D, hD, d0, D0, hD0, hd0, hval⟩ := toDigitsCore_spec (n + 1) n [] (by omega)
  have e : (Nat.repr n).data = D := by
    simp only [Nat.repr, Nat.toDigits, List.asString]
    rw [hD, List.append_nil]
  rw [e, hD0]
  simp only [List.cons_append, parseNat, digitVal_digitChar d0 hd0]
  rw [hval, parseDigits_stop rest n h]

theorem digitVal_minus : digitVal '-' = none := by decide

theorem repr_head_ne_minus (n : Nat) : ∃ c cs, (Nat.repr n).data = c :: cs ∧ c ≠ '-' := by
  obtain ⟨D, hD, d0, D0, hD0, hd0, _⟩ := toDigitsCore_spec (n + 1) n [] (by omega)
  have e : (Nat.repr n).data = D := by
    simp only [Nat.repr, Nat.toDigits, List.asString]
    rw [hD, List.append_nil]
  refine ⟨Nat.digitChar d0, D0, by rw [e, hD0], ?_⟩
  intro hc
  have := digitVal_digitChar d0 hd0
  rw [hc, digitVal_minus] at this
  cases this

theorem parseNumber_numberToString (n : Int) (rest : List Char) (h : noDigitAhead rest) :
    parseNumber ((numberToString n).data ++ rest) = some (n, rest) := by
  unfold numberToString
  cases n with
  | ofNat m =>
    show parseNumber ((Nat.repr m).data ++ rest) = _
    obtain ⟨c, cs, hc, hne⟩ := repr_head_ne_minus m
    have hp := parseNat_repr m rest h
    rw [hc] at hp ⊢
    simp only [List.cons_append, parseNumber, if_neg hne] at hp ⊢
    rw [hp]
    rfl
  | negSucc m =>
    show parseNumber (("-" ++ Nat.repr (m + 1)).data ++ rest) = _
    simp only [String.data_append, List.append_assoc]
    show parseNumber ('-' :: ((Nat.repr (m + 1)).data ++ rest)) = _
    simp only [parseNumber, if_true, parseNat_repr (m + 1) rest h, Option.map_some']
    rfl


theorem hexVal_hexDigit (n : Nat) (h : n < 16) : hexVal (hexDigit n) = some n := by
  interval_cases n <;> decide

theorem parseStringBody_quoteChar (c : Char) (rest acc : List Char) :
    parseStringBody ((quoteChar c).data ++ rest) .normal acc
      = parseStringBody rest .normal (c :: acc) := by
  unfold quoteChar
  split
  · rename_i h; subst h; rfl
  split
  · rename_i h; subst h; rfl
  split
  · rename_i h; subst h; rfl
  split
  · rename_i h; subst h; rfl
  split
  · rename_i h; subst h; rfl
  split
  · rename_i h; subst h; rfl
  split
  · rename_i h; subst h; rfl
  rename_i h1 h2 h3 h4 h5 hq hb
  split
  · rename_i hlt
    have e3 : c.toNat / 4096 % 16 = 0 := by omega
    have e2 : c.toNat / 256 % 16 = 0 := by omega
    have hv : ¬ (55296 ≤ ((0 * 16 + 0) * 16 + c.toNat / 16 % 16) * 16 + c.toNat % 16 ∧
        ((0 * 16 + 0) * 16 + c.toNat / 16 % 16) * 16 + c.toNat % 16 ≤ 57343) := by omega
    have hval : ((0 * 16 + 0) * 16 + c.toNat / 16 % 16) * 16 + c.toNat % 16 = c.toNat := by omega
    simp only [unicodeEscape, String.data_append, e3, e2]
    show parseStringBody ('\\' :: 'u' :: hexDigit 0 :: hexDigit 0 :: hexDigit (c.toNat / 16 % 16)
      :: hexDigit (c.toNat % 16) :: rest) .normal acc = _
    simp only [parseStringBody, hexVal_hexDigit _ (show 0 < 16 by norm_num),
      hexVal_hexDigit _ (Nat.mod_lt (c.toNat / 16) (by norm_num)),
      hexVal_hexDigit _ (Nat.mod_lt c.toNat (by norm_num))]
    simp only [show ('\\' = '"') = False by decide, show ('u' = 'u') = True by decide, if_true,
      if_false, hv, hval]
    simp
    intro h
    omega
  · rename_i hge
    show parseStringBody (c :: rest) .normal acc = _
    simp only [parseStringBody, if_neg hq, if_neg hb, if_neg hge]

theorem parseStringBody_body (cs : List Char) :
    ∀ (rest acc : List Char),
      parseStringBody ((cs.map (fun c => (quoteChar c).data)).flatten ++ '"' :: rest) .normal acc
        = some (String.mk (acc.reverse ++ cs), rest) := by
  induction cs with
  | nil => intro rest acc; simp [parseStringBody]
  | cons c cs ih =>
    intro rest acc
    simp only [List.map_cons, List.flatten_cons, List.append_assoc]
    rw [parseStringBody_quoteChar, ih]
    simp

theorem parseStringBody_quoteJSONString (s : String) (rest : List Char) :
    ∃ body : List Char, (quoteJSONString s).data ++ rest = '"' :: body ∧
      parseStringBody body .normal [] = some (s, rest) := by
  refine ⟨(s.data.map (fun c => (quoteChar c).data)).flatten ++ '"' :: rest, ?_, ?_⟩
  · unfold quoteJSONString
    simp only [String.data_append, String.data_join, List.map_map, List.append_assoc]
    rfl
  · rw [parseStringBody_body]
    rfl


theorem skipWs_append (w : List Char) (h : allWs w) (cs : List Char) :
    skipWs (w ++ cs) = skipWs cs := by
  induction w with
  | nil => rfl
  | cons c w ih =>
    have hc : isWs c = true := h c (List.mem_cons_self _ _)
    simp only [List.cons_append, skipWs, hc, if_true]
    exact ih (fun d hd => h d (List.mem_cons_of_mem _ hd))

theorem skipWs_cons (c : Char) (cs : List Char) (h : isWs c = false) :
    skipWs (c :: cs) = c :: cs := by
  simp [skipWs, h]

theorem parseValue_skip (fuel : Nat) (w : List Char) (h : allWs w) (cs : List Char) :
    parseValue fuel (w ++ cs) = parseValue fuel cs := by
  cases fuel with
  | zero => simp [parseValue]
  | succ f => simp only [parseValue, skipWs_append w h]

theorem parseItems_skip (fuel : Nat) (w : List Char) (h : allWs w) (cs : List Char) :
    parseItems fuel (w ++ cs) = parseItems fuel cs := by
  cases fuel with
  | zero => simp [parseItems]
  | succ f => simp only [parseItems, parseValue_skip f w h]

theorem parseMembers_skip (fuel : Nat) (w : List Char) (h : allWs w) (cs : List Char) :
    parseMembers fuel (w ++ cs) = parseMembers fuel cs := by
  cases fuel with
  | zero => simp [parseMembers]
  | succ f => simp only [parseMembers, skipWs_append w h]

theorem digitChar_startsValue (d : Nat) (h : d < 10) :
    startsValue (Nat.digitChar d) ∧ Nat.digitChar d ≠ '"' ∧ Nat.digitChar d ≠ '['
      ∧ Nat.digitChar d ≠ '\x7b' := by
  unfold startsValue
  interval_cases d <;> decide

theorem repr_head (n : Nat) : ∃ d cs, (Nat.repr n).data = Nat.digitChar d :: cs ∧ d < 10 := by
  obtain ⟨D, hD, d0, D0, hD0, hd0, _⟩ := toDigitsCore_spec (n + 1) n [] (by omega)
  have e : (Nat.repr n).data = D := by
    simp only [Nat.repr, Nat.toDigits, List.asString]
    rw [hD, List.append_nil]
  exact ⟨d0, D0, by rw [e, hD0], hd0⟩

theorem numberToString_head (n : Int) :
    ∃ c cs, (numberToString n).data = c :: cs ∧ startsValue c ∧ c ≠ '"' ∧ c ≠ '['
      ∧ c ≠ '\x7b' := by
  unfold numberToString
  cases n with
  | ofNat m =>
    obtain ⟨d, cs, h, hd⟩ := repr_head m
    exact ⟨_, cs, h, digitChar_startsValue d hd⟩
  | negSucc m =>
    refine ⟨'-', (Nat.repr (m + 1)).data, rfl, ?_⟩
    unfold startsValue
    decide

theorem quoteJSONString_data (s : String) :
    (quoteJSONString s).data
      = '"' :: ((s.data.map (fun c => (quoteChar c).data)).flatten ++ ['"']) := by
  unfold quoteJSONString
  simp only [String.data_append, String.data_join, List.map_map]
  rfl

theorem serialize_head (gap indent : String) (v : Json) :
    ∃ c cs, (serialize gap indent v).data = c :: cs ∧ startsValue c := by
  cases v with
  | num n =>
    obtain ⟨c, cs, h, hs, _⟩ := numberToString_head n
    exact ⟨c, cs, by simpa [serialize] using h, hs⟩
  | str s =>
    refine ⟨'"', _, by simp only [serialize]; exact quoteJSONString_data s, ?_⟩
    unfold startsValue; decide
  | arr xs =>
    cases xs with
    | nil => exact ⟨'[', [']'], by simp [serialize], by unfold startsValue; decide⟩
    | cons x xs =>
      by_cases hg : gap = ""
      · refine ⟨'[', _, by simp only [serialize, hg, if_true, String.data_append]; rfl, ?_⟩
        unfold startsValue; decide
      · refine ⟨'[', _, by simp only [serialize, hg, if_false, String.data_append]; rfl, ?_⟩
        unfold startsValue; decide
  | obj ms =>
    cases ms with
    | nil => exact ⟨'\x7b', ['\x7d'], by simp [serialize], by unfold startsValue; decide⟩
    | cons m ms =>
      by_cases hg : gap = ""
      · refine ⟨'\x7b', _, by simp only [serialize, hg, if_true, String.data_append]; rfl, ?_⟩
        unfold startsValue; decide
      · refine ⟨'\x7b', _, by simp only [serialize, hg, if_false, String.data_append]; rfl, ?_⟩
        unfold startsValue; decide


theorem joinWith_cons_cons_data (sep a b : String) (rest : List String) :
    (joinWith sep (a :: b :: rest)).data = a.data ++ (sep.data ++ (joinWith sep (b :: rest)).data) := by
  simp [joinWith, String.data_append]

theorem items_head (gap indent sep : String) (x : Json) (xs : List Json) :
    ∃ c cs, (joinWith sep (serializeItems gap indent (x :: xs))).data = c :: cs ∧ startsValue c := by
  obtain ⟨c, cs, h, hs⟩ := serialize_head gap indent x
  cases xs with
  | nil => exact ⟨c, cs, by simpa [serializeItems, joinWith] using h, hs⟩
  | cons y ys =>
    refine ⟨c, cs ++ (sep.data ++ (joinWith sep (serializeItems gap indent (y :: ys))).data), ?_, hs⟩
    simp only [serializeItems, joinWith_cons_cons_data, h, List.cons_append]

theorem member_data (gap indent k : String) (v : Json) (hgap : gap ≠ "") :
    (quoteJSONString k ++ (if gap = "" then ":" else ": ") ++ serialize gap indent v).data
      = (quoteJSONString k).data ++ (':' :: ' ' :: (serialize gap indent v).data) := by
  simp only [if_neg hgap, String.data_append, List.append_assoc]
  rfl

theorem members_head (gap indent sep : String) (m : String × Json) (ms : List (String × Json))
    (hgap : gap ≠ "") :
    ∃ cs, (joinWith sep (serializeMembers gap indent (m :: ms))).data = '"' :: cs := by
  obtain ⟨k, v⟩ := m
  cases ms with
  | nil =>
    simp only [serializeMembers, joinWith, member_data _ _ _ _ hgap, quoteJSONString_data,
      List.cons_append]
    exact ⟨_, rfl⟩
  | cons y ys =>
    simp only [serializeMembers, joinWith_cons_cons_data, member_data _ _ _ _ hgap,
      quoteJSONString_data, List.cons_append]
    exact ⟨_, rfl⟩

theorem serialize_arr_data (gap indent : String) (x : Json) (xs : List Json) (hgap : gap ≠ "") :
    (serialize gap indent (.arr (x :: xs))).data
      = '[' :: '\n' :: ((indent ++ gap).data ++
          ((joinWith (",\n" ++ (indent ++ gap)) (serializeItems gap (indent ++ gap) (x :: xs))).data
            ++ '\n' :: (indent.data ++ [']']))) := by
  simp [serialize, hgap]

theorem serialize_obj_data (gap indent : String) (m : String × Json) (ms : List (String × Json))
    (hgap : gap ≠ "") :
    (serialize gap indent (.obj (m :: ms))).data
      = '\x7b' :: '\n' :: ((indent ++ gap).data ++
          ((joinWith (",\n" ++ (indent ++ gap)) (serializeMembers gap (indent ++ gap) (m :: ms))).data
            ++ '\n' :: (indent.data ++ ['\x7d']))) := by
  simp [serialize, hgap]

theorem sep_data (indent : String) : (",\n" ++ indent).data = ',' :: ('\n' :: indent.data) := rfl

theorem allWs_nl (w : List Char) (h : allWs w) : allWs ('\n' :: w) := by
  intro c hc
  rcases List.mem_cons.1 hc with rfl | hc
  · decide
  · exact h c hc

theorem allWs_append (a b : List Char) (ha : allWs a) (hb : allWs b) : allWs (a ++ b) := by
  intro c hc
  rcases List.mem_append.1 hc with h | h
  · exact ha c h
  · exact hb c h

theorem noDigitAhead_of_cons (c : Char) (cs : List Char) (h : digitVal c = none) :
    noDigitAhead (c :: cs) := h


theorem items_single_data (gap indent sep : String) (x : Json) :
    (joinWith sep (serializeItems gap indent [x])).data = (serialize gap indent x).data := by
  simp [serializeItems, joinWith]

theorem items_cons_cons_data (gap indent : String) (x y : Json) (r : List Json) :
    (joinWith (",\n" ++ indent) (serializeItems gap indent (x :: y :: r))).data
      = (serialize gap indent x).data ++ (',' :: '\n' :: (indent.data ++
          (joinWith (",\n" ++ indent) (serializeItems gap indent (y :: r))).data)) := by
  simp only [serializeItems, joinWith_cons_cons_data, sep_data, List.cons_append]

theorem members_single_data (gap indent sep k : String) (v : Json) (hgap : gap ≠ "") :
    (joinWith sep (serializeMembers gap indent [(k, v)])).data
      = (quoteJSONString k).data ++ (':' :: ' ' :: (serialize gap indent v).data) := by
  simp only [serializeMembers, joinWith, member_data _ _ _ _ hgap]

theorem members_cons_cons_data (gap indent k : String) (v : Json) (y : String × Json)
    (r : List (String × Json)) (hgap : gap ≠ "") :
    (joinWith (",\n" ++ indent) (serializeMembers gap indent ((k, v) :: y :: r))).data
      = (quoteJSONString k).data ++ (':' :: ' ' :: ((serialize gap indent v).data ++
          (',' :: '\n' :: (indent.data ++
            (joinWith (",\n" ++ indent) (serializeMembers gap indent (y :: r))).data)))) := by
  obtain ⟨k2, v2⟩ := y
  simp only [serializeMembers, joinWith_cons_cons_data, sep_data, member_data _ _ _ _ hgap,
    List.cons_append, List.append_assoc]

theorem isWs_of_startsValue (c : Char) (h : startsValue c) : isWs c = false := h.1

theorem skipWs_nl_indent (w cs : List Char) (h : allWs w) :
    skipWs ('\n' :: (w ++ cs)) = skipWs cs := by
  have := skipWs_append ('\n' :: w) (allWs_nl w h) cs
  simpa using this

mutual
theorem parseValue_serialize (gap : String) (hgap : gap ≠ "") (hg : allWs gap.data) :
    ∀ (v : Json) (indent : String) (rest : List Char) (fuel : Nat),
      allWs indent.data → noDigitAhead rest → v.need ≤ fuel →
        parseValue fuel ((serialize gap indent v).data ++ rest) = some (v, rest)
  | .num n, indent, rest, fuel, _, hr, hf => by
    obtain ⟨f, rfl⟩ : ∃ f, fuel = f + 1 := ⟨fuel - 1, by simp only [Json.need] at hf; omega⟩
    obtain ⟨c, cs, hc, hs, h1, h2, h3⟩ := numberToString_head n
    have hp := parseNumber_numberToString n rest hr
    simp only [serialize]
    rw [hc] at hp ⊢
    simp only [List.cons_append] at hp ⊢
    simp only [parseValue, skipWs_cons c _ hs.1, if_neg h1, if_neg h2, if_neg h3, hp,
      Option.map_some']
  | .str s, indent, rest, fuel, _, _, hf => by
    obtain ⟨f, rfl⟩ : ∃ f, fuel = f + 1 := ⟨fuel - 1, by simp only [Json.need] at hf; omega⟩
    obtain ⟨body, hb, hp⟩ := parseStringBody_quoteJSONString s rest
    simp only [serialize]
    rw [hb]
    simp only [parseValue, skipWs_cons '"' _ (by decide), if_true, hp, Option.map_some']
  | .arr [], indent, rest, fuel, _, _, hf => by
    obtain ⟨f, rfl⟩ : ∃ f, fuel = f + 1 := ⟨fuel - 1, by simp only [Json.need] at hf; omega⟩
    have e : (serialize gap indent (.arr [])).data ++ rest = '[' :: ']' :: rest := by
      simp [serialize]
    rw [e]
    simp only [parseValue, skipWs_cons '[' _ (by decide), skipWs_cons ']' _ (by decide), headIs,
      show ('[' = '"') = False by decide, if_false, if_true]
  | .arr (x :: xs), indent, rest, fuel, hi, _, hf => by
    obtain ⟨f, rfl⟩ : ∃ f, fuel = f + 1 := ⟨fuel - 1, by simp only [Json.need] at hf; omega⟩
    have hf' : needItems (x :: xs) ≤ f := by simp only [Json.need] at hf; omega
    have hi' : allWs (indent ++ gap).data := by
      rw [String.data_append]
      exact allWs_append _ _ hi hg
    obtain ⟨c, cs, hc, hs⟩ := items_head gap (indent ++ gap) (",\n" ++ (indent ++ gap)) x xs
    have ih := parseItems_serialize gap hgap hg (x :: xs) (indent ++ gap) indent rest f
      (by simp) hi' hi hf'
    rw [serialize_arr_data gap indent x xs hgap]
    simp only [List.cons_append, List.append_assoc, List.singleton_append, List.nil_append]
    have hskip : skipWs ('\n' :: ((indent ++ gap).data ++
        ((joinWith (",\n" ++ (indent ++ gap)) (serializeItems gap (indent ++ gap) (x :: xs))).data ++
          '\n' :: (indent.data ++ ']' :: rest)))) = c :: (cs ++ '\n' :: (indent.data ++ ']' :: rest)) := by
      rw [skipWs_nl_indent _ _ hi', hc, List.cons_append, skipWs_cons c _ hs.1]
    have hpi : parseItems f ('\n' :: ((indent ++ gap).data ++
        ((joinWith (",\n" ++ (indent ++ gap)) (serializeItems gap (indent ++ gap) (x :: xs))).data ++
          '\n' :: (indent.data ++ ']' :: rest)))) = some (x :: xs, rest) := by
      have := parseItems_skip f ('\n' :: (indent ++ gap).data) (allWs_nl _ hi')
        ((joinWith (",\n" ++ (indent ++ gap)) (serializeItems gap (indent ++ gap) (x :: xs))).data ++
          '\n' :: (indent.data ++ ']' :: rest))
      rw [List.cons_append] at this
      rw [this, ih]
    simp only [parseValue, skipWs_cons '[' _ (by decide), show ('[' = '"') = False by decide,
      if_false, if_true, hskip, headIs, if_neg hs.2.1, hpi, Option.map_some']
  | .obj [], indent, rest, fuel, _, _, hf => by
    obtain ⟨f, rfl⟩ : ∃ f, fuel = f + 1 := ⟨fuel - 1, by simp only [Json.need] at hf; omega⟩
    have e : (serialize gap indent (.obj [])).data ++ rest = '\x7b' :: '\x7d' :: rest := by
      simp [serialize]
    rw [e]
    simp only [parseValue, skipWs_cons '\x7b' _ (by decide), skipWs_cons '\x7d' _ (by decide),
      headIs, show ('\x7b' = '"') = False by decide, show ('\x7b' = '[') = False by decide,
      if_false, if_true]
  | .obj (m :: ms), indent, rest, fuel, hi, _, hf => by
    obtain ⟨f, rfl⟩ : ∃ f, fuel = f + 1 := ⟨fuel - 1, by simp only [Json.need] at hf; omega⟩
    have hf' : needMembers (m :: ms) ≤ f := by simp only [Json.need] at hf; omega
    have hi' : allWs (indent ++ gap).data := by
      rw [String.data_append]
      exact allWs_append _ _ hi hg
    obtain ⟨cs, hc⟩ := members_head gap (indent ++ gap) (",\n" ++ (indent ++ gap)) m ms hgap
    have ih := parseMembers_serialize gap hgap hg (m :: ms) (indent ++ gap) indent rest f
      (by simp) hi' hi hf'
    rw [serialize_obj_data gap indent m ms hgap]
    simp only [List.cons_append, List.append_assoc, List.singleton_append, List.nil_append]
    have hskip : skipWs ('\n' :: ((indent ++ gap).data ++
        ((joinWith (",\n" ++ (indent ++ gap)) (serializeMembers gap (indent ++ gap) (m :: ms))).data ++
          '\n' :: (indent.data ++ '\x7d' :: rest)))) = '"' :: (cs ++ '\n' :: (indent.data ++ '\x7d' :: rest)) := by
      rw [skipWs_nl_indent _ _ hi', hc, List.cons_append, skipWs_cons '"' _ (by decide)]
    have hpi : parseMembers f ('\n' :: ((indent ++ gap).data ++
        ((joinWith (",\n" ++ (indent ++ gap)) (serializeMembers gap (indent ++ gap) (m :: ms))).data ++
          '\n' :: (indent.data ++ '\x7d' :: rest)))) = some (m :: ms, rest) := by
      have := parseMembers_skip f ('\n' :: (indent ++ gap).data) (allWs_nl _ hi')
        ((joinWith (",\n" ++ (indent ++ gap)) (serializeMembers gap (indent ++ gap) (m :: ms))).data ++
          '\n' :: (indent.data ++ '\x7d' :: rest))
      rw [List.cons_append] at this
      rw [this, ih]
    simp only [parseValue, skipWs_cons '\x7b' _ (by decide), show ('\x7b' = '"') = False by decide,
      show ('\x7b' = '[') = False by decide, show ('"' = '\x7d') = False by decide,
      if_false, if_true, hskip, headIs, hpi, Option.map_some']
theorem parseItems_serialize (gap : String) (hgap : gap ≠ "") (hg : allWs gap.data) :
    ∀ (xs : List Json) (indent stepback : String) (rest : List Char) (fuel : Nat),
      xs ≠ [] → allWs indent.data → allWs stepback.data → needItems xs ≤ fuel →
        parseItems fuel ((joinWith (",\n" ++ indent) (serializeItems gap indent xs)).data ++
          '\n' :: (stepback.data ++ ']' :: rest)) = some (xs, rest)
  | [], _, _, _, _, h, _, _, _ => absurd rfl h
  | [x], indent, stepback, rest, fuel, _, hi, hsb, hf => by
    obtain ⟨f, rfl⟩ : ∃ f, fuel = f + 1 := ⟨fuel - 1, by simp only [needItems] at hf; omega⟩
    have hf' : x.need ≤ f := by simp only [needItems] at hf; omega
    have ih := parseValue_serialize gap hgap hg x indent ('\n' :: (stepback.data ++ ']' :: rest)) f
      hi (noDigitAhead_of_cons _ _ (by decide)) hf'
    rw [items_single_data]
    simp only [parseItems, ih, skipWs_nl_indent _ _ hsb, skipWs_cons ']' _ (by decide),
      show (']' = ',') = False by decide, if_false, if_true]
  | x :: y :: r, indent, stepback, rest, fuel, _, hi, hsb, hf => by
    obtain ⟨f, rfl⟩ : ∃ f, fuel = f + 1 := ⟨fuel - 1, by simp only [needItems] at hf; omega⟩
    have hf1 : x.need ≤ f := by simp only [needItems] at hf; omega
    have hf2 : needItems (y :: r) ≤ f := by simp only [needItems] at hf ⊢; omega
    have ih2 := parseItems_serialize gap hgap hg (y :: r) indent stepback rest f (by simp) hi hsb hf2
    have ih1 := parseValue_serialize gap hgap hg x indent
      (',' :: '\n' :: (indent.data ++
        ((joinWith (",\n" ++ indent) (serializeItems gap indent (y :: r))).data ++
          '\n' :: (stepback.data ++ ']' :: rest)))) f
      hi (noDigitAhead_of_cons _ _ (by decide)) hf1
    have hskip := parseItems_skip f ('\n' :: indent.data) (allWs_nl _ hi)
      ((joinWith (",\n" ++ indent) (serializeItems gap indent (y :: r))).data ++
          '\n' :: (stepback.data ++ ']' :: rest))
    rw [List.cons_append] at hskip
    rw [items_cons_cons_data]
    simp only [List.append_assoc, List.cons_append]
    simp only [parseItems, ih1, skipWs_cons ',' _ (by decide), if_true, hskip, ih2,
      Option.map_some']
theorem parseMembers_serialize (gap : String) (hgap : gap ≠ "") (hg : allWs gap.data) :
    ∀ (ms : List (String × Json)) (indent stepback : String) (rest : List Char) (fuel : Nat),
      ms ≠ [] → allWs indent.data → allWs stepback.data → needMembers ms ≤ fuel →
        parseMembers fuel ((joinWith (",\n" ++ indent) (serializeMembers gap indent ms)).data ++
          '\n' :: (stepback.data ++ '\x7d' :: rest)) = some (ms, rest)
  | [], _, _, _, _, h, _, _, _ => absurd rfl h
  | [(k, v)], indent, stepback, rest, fuel, _, hi, hsb, hf => by
    obtain ⟨f, rfl⟩ : ∃ f, fuel = f + 1 := ⟨fuel - 1, by simp only [needMembers] at hf; omega⟩
    have hf' : v.need ≤ f := by simp only [needMembers] at hf; omega
    have ih := parseValue_serialize gap hgap hg v indent ('\n' :: (stepback.data ++ '\x7d' :: rest)) f
      hi (noDigitAhead_of_cons _ _ (by decide)) hf'
    obtain ⟨body, hb, hp⟩ := parseStringBody_quoteJSONString k
      (':' :: ' ' :: ((serialize gap indent v).data ++ '\n' :: (stepback.data ++ '\x7d' :: rest)))
    have hv := parseValue_skip f [' '] (by intro c hc; simp at hc; subst hc; decide)
      ((serialize gap indent v).data ++ '\n' :: (stepback.data ++ '\x7d' :: rest))
    simp only [List.singleton_append] at hv
    rw [members_single_data _ _ _ _ _ hgap]
    simp only [List.append_assoc, List.cons_append]
    rw [hb]
    simp only [parseMembers, skipWs_cons '"' _ (by decide), headIs, if_true, hp,
      skipWs_cons ':' _ (by decide), hv, ih, skipWs_nl_indent _ _ hsb,
      skipWs_cons '\x7d' _ (by decide), show ('\x7d' = ',') = False by decide, if_false]
  | (k, v) :: y :: r, indent, stepback, rest, fuel, _, hi, hsb, hf => by
    obtain ⟨f, rfl⟩ : ∃ f, fuel = f + 1 := ⟨fuel - 1, by simp only [needMembers] at hf; omega⟩
    have hf1 : v.need ≤ f := by simp only [needMembers] at hf; omega
    have hf2 : needMembers (y :: r) ≤ f := by
      obtain ⟨k2, v2⟩ := y
      simp only [needMembers] at hf ⊢; omega
    have ih2 := parseMembers_serialize gap hgap hg (y :: r) indent stepback rest f (by simp) hi hsb hf2
    have ih1 := parseValue_serialize gap hgap hg v indent
      (',' :: '\n' :: (indent.data ++
        ((joinWith (",\n" ++ indent) (serializeMembers gap indent (y :: r))).data ++
          '\n' :: (stepback.data ++ '\x7d' :: rest)))) f
      hi (noDigitAhead_of_cons _ _ (by decide)) hf1
    have hskip := parseMembers_skip f ('\n' :: indent.data) (allWs_nl _ hi)
      ((joinWith (",\n" ++ indent) (serializeMembers gap indent (y :: r))).data ++
          '\n' :: (stepback.data ++ '\x7d' :: rest))
    rw [List.cons_append] at hskip
    obtain ⟨body, hb, hp⟩ := parseStringBody_quoteJSONString k
      (':' :: ' ' :: ((serialize gap indent v).data ++ (',' :: '\n' :: (indent.data ++
        ((joinWith (",\n" ++ indent) (serializeMembers gap indent (y :: r))).data ++
          '\n' :: (stepback.data ++ '\x7d' :: rest))))))
    have hv := parseValue_skip f [' '] (by intro c hc; simp at hc; subst hc; decide)
      ((serialize gap indent v).data ++ (',' :: '\n' :: (indent.data ++
        ((joinWith (",\n" ++ indent) (serializeMembers gap indent (y :: r))).data ++
          '\n' :: (stepback.data ++ '\x7d' :: rest)))))
    simp only [List.singleton_append] at hv
    rw [members_cons_cons_data _ _ _ _ _ _ hgap]
    simp only [List.append_assoc, List.cons_append]
    rw [hb]
    simp only [parseMembers, skipWs_cons '"' _ (by decide), headIs, if_true, hp,
      skipWs_cons ':' _ (by decide), hv, ih1, skipWs_cons ',' _ (by decide), hskip, ih2,
      Option.map_some']
end

end MapAnnotation

/-! ## Exports -/

namespace MapAnnotation

/-- Claim C9: in every session state the raster export is unavailable (its
button is disabled, `downloadLabeledImage` returns early, a click yields no
file) exactly when no image is loaded, and the structured export is
unavailable (its button is disabled, a click yields no file) exactly when the
label list is empty; the first condition is the same for every label list
and the second is the same for every image and size. -/
theorem export_enablement (s : SessionState) :
    (rasterButtonDisabled s = true ↔ s.image = none) ∧
      (downloadLabeledImage s = none ↔ s.image = none) ∧
      (clickRasterButton s = none ↔ s.image = none) ∧
      (jsonButtonDisabled s = true ↔ s.labels = []) ∧
      (clickJsonButton s = none ↔ s.labels = []) ∧
      (∀ labels : List Label,
        rasterButtonDisabled { s with labels := labels } = rasterButtonDisabled s ∧
          (clickRasterButton { s with labels := labels }).isSome = (clickRasterButton s).isSome) ∧
      (∀ (image : Option DataURL) (imgSize : ImgSize),
        jsonButtonDisabled { s with image := image, imgSize := imgSize } = jsonButtonDisabled s ∧
          (clickJsonButton { s with image := image, imgSize := imgSize }).isSome
            = (clickJsonButton s).isSome) := by
  have hd : downloadLabeledImage s = none ↔ s.image = none := by
    unfold downloadLabeledImage
    cases h : s.image with
    | none => simp
    | some u => simp [truthyString_text]
  have hr : rasterButtonDisabled s = true ↔ s.image = none := by
    unfold rasterButtonDisabled
    rw [truthyImage_eq_isSome]
    cases s.image <;> simp
  have hj : jsonButtonDisabled s = true ↔ s.labels = [] := by
    unfold jsonButtonDisabled
    cases s.labels <;> simp
  refine ⟨hr, hd, ?_, hj, ?_, ?_, ?_⟩
  · unfold clickRasterButton
    by_cases h : s.image = none
    · simp [hr.2 h, h]
    · have : rasterButtonDisabled s = false := by
        cases hb : rasterButtonDisabled s
        · rfl
        · exact absurd (hr.1 hb) h
      simp [this, hd]
  · unfold clickJsonButton
    by_cases h : s.labels = []
    · simp [hj.2 h, h]
    · have : jsonButtonDisabled s = false := by
        cases hb : jsonButtonDisabled s
        · rfl
        · exact absurd (hj.1 hb) h
      simp [this, h]
  · intro labels
    refine ⟨rfl, ?_⟩
    unfold clickRasterButton rasterButtonDisabled downloadLabeledImage
    cases s.image with
    | none => simp [truthyImage]
    | some u => simp [truthyImage, truthyString_text]
  · intro image imgSize
    refine ⟨rfl, ?_⟩
    unfold clickJsonButton jsonButtonDisabled
    cases s.labels <;> simp

theorem gap_two_spaces : String.mk (List.replicate (min 2 10) ' ') = "  " := by decide

theorem needItems_labels (labels : List Label) :
    needItems (labels.map Label.toJson) = 8 * labels.length := by
  induction labels with
  | nil => rfl
  | cons l ls ih =>
    simp only [List.map_cons, needItems, Label.toJson, Json.need, needMembers, ih, List.length_cons]
    omega

theorem need_exportDocument (s : SessionState) :
    (exportDocument s).need = 8 * s.labels.length + 9 := by
  simp only [exportDocument, ImgSize.toJson, Json.need, needMembers, needItems_labels]
  omega

theorem parseJson_stringify (v : Json) (fuel : Nat) (h : v.need ≤ fuel) :
    parseJson fuel (stringify v 2) = some v := by
  have hp := parseValue_serialize "  " (by decide) (by intro c hc; simp at hc; subst hc; decide)
    v "" [] fuel (by intro c hc; simp at hc) trivial h
  unfold parseJson stringify
  rw [gap_two_spaces]
  rw [List.append_nil] at hp
  rw [hp]
  rfl

/-- Claim C1: for every session state, the text `downloadJSON` puts into
`labels.json`, read back as JSON, is an object with exactly the two fields
`imageDimensions` and `labels`, in that order: the first is
`{ width, height }` of `imgSize`, the second is the array of one record
`{ name, x, y }` per label, in the order of the label list, nothing added,
dropped or reordered.  For the list with the one label `A` at `(10, 20)` and
the size `100` by `50` the text is, with two-space indentation,
`{"imageDimensions": {"width": 100, "height": 50}, "labels": [{"name": "A", "x": 10, "y": 20}]}`. -/
theorem downloadJSON_document (s : SessionState) :
    (downloadJSON s).download = "labels.json" ∧
      (∀ fuel : Nat, 8 * s.labels.length + 9 ≤ fuel →
        parseJson fuel (downloadJSON s).text
          = some (Json.obj
              [("imageDimensions",
                  Json.obj [("width", .num s.imgSize.width), ("height", .num s.imgSize.height)]),
               ("labels",
                  Json.arr (s.labels.map fun l =>
                    Json.obj [("name", .str l.name), ("x", .num l.x), ("y", .num l.y)]))])) ∧
      (downloadJSON { s with labels := [{ name := "A", x := 10, y := 20 }]
                             imgSize := { width := 100, height := 50 } }).text
        = "\x7b\n  \"imageDimensions\": \x7b\n    \"width\": 100,\n    \"height\": 50\n  \x7d,\n  \"labels\": [\n    \x7b\n      \"name\": \"A\",\n      \"x\": 10,\n      \"y\": 20\n    \x7d\n  ]\n\x7d" := by
  refine ⟨rfl, ?_, ?_⟩
  · intro fuel hfuel
    have h := parseJson_stringify (exportDocument s) fuel (by rw [need_exportDocument]; exact hfuel)
    exact h
  · show (downloadJSON { image := none, labels := [{ name := "A", x := 10, y := 20 }]
                         imgSize := { width := 100, height := 50 } }).text = _
    decide

theorem downloadJSON_document_witness :
    parseJson 17
        (downloadJSON
          { image := none
            labels := [{ name := "A", x := 10, y := 20 }]
            imgSize := { width := 100, height := 50 } }).text
      = some (Json.obj
          [("imageDimensions", Json.obj [("width", .num 100), ("height", .num 50)]),
           ("labels", Json.arr [Json.obj [("name", .str "A"), ("x", .num 10), ("y", .num 20)]])]) :=
  (downloadJSON_document
    { image := none
      labels := [{ name := "A", x := 10, y := 20 }]
      imgSize := { width := 100, height := 50 } }).2.1 17 (by decide)

end MapAnnotation

/-! ## Rounding -/

namespace MapAnnotation

theorem floor_eq (q : ℚ) : Rat.floor q = ⌊q⌋ := rfl

theorem mathRound_eq_iff (q : ℚ) (n : Int) :
    mathRound q = n ↔ (n : ℚ) ≤ q + 1 / 2 ∧ q + 1 / 2 < (n : ℚ) + 1 := by
  unfold mathRound
  rw [floor_eq, Int.floor_eq_iff]

theorem mathRound_bounds (r : ℚ) (W : Nat) (h0 : 0 ≤ r) (h1 : r ≤ (W : ℚ)) :
    0 ≤ mathRound r ∧ mathRound r ≤ (W : Int) ∧ (r < (W : ℚ) - 1 / 2 → mathRound r < (W : Int)) := by
  have hle := mathRound_le r
  have hgt := mathRound_gt r
  refine ⟨?_, ?_, ?_⟩
  · have h : (-1 : ℚ) < ((mathRound r : Int) : ℚ) := by linarith
    have h2 : (-1 : Int) < mathRound r := by exact_mod_cast h
    omega
  · have h : ((mathRound r : Int) : ℚ) < ((W : Int) : ℚ) + 1 := by
      push_cast
      linarith
    have h2 : mathRound r < (W : Int) + 1 := by exact_mod_cast h
    omega
  · intro h
    have h3 : ((mathRound r : Int) : ℚ) < ((W : Int) : ℚ) := by
      push_cast
      linarith
    exact_mod_cast h3

theorem roundHalfEven_cases (q : ℚ) :
    roundHalfEven q = ⌊q⌋ ∨ roundHalfEven q = ⌊q⌋ + 1 ∧ 1 / 2 ≤ q - ⌊q⌋ := by
  unfold roundHalfEven
  simp only [floor_eq]
  split
  · exact Or.inl rfl
  · rename_i h
    split
    · exact Or.inr ⟨rfl, le_of_not_lt h⟩
    · split
      · exact Or.inl rfl
      · exact Or.inr ⟨rfl, le_of_not_lt h⟩

theorem roundHalfEven_intCast (m : Int) : roundHalfEven (m : ℚ) = m := by
  unfold roundHalfEven
  simp [floor_eq]

theorem roundHalfEven_nonneg (q : ℚ) (h : 0 ≤ q) : 0 ≤ roundHalfEven q := by
  have hf : 0 ≤ ⌊q⌋ := Int.floor_nonneg.2 h
  rcases roundHalfEven_cases q with e | ⟨e, _⟩ <;> omega

theorem roundHalfEven_le (q : ℚ) (K : Int) (h : q ≤ K) : roundHalfEven q ≤ K := by
  rcases roundHalfEven_cases q with e | ⟨e, hfrac⟩
  · rw [e]
    exact Int.floor_le_iff.2 (by linarith)
  · rw [e]
    have hlt : ⌊q⌋ < K := by
      rw [Int.floor_lt]
      by_contra hc
      have hq : q = K := le_antisymm h (not_lt.1 hc)
      rw [hq, Int.floor_intCast] at hfrac
      norm_num at hfrac
    omega

theorem roundHalfEven_near (q : ℚ) : |(roundHalfEven q : ℚ) - q| ≤ 1 / 2 := by
  have h1 := Int.floor_le q
  have h2 := Int.lt_floor_add_one q
  unfold roundHalfEven
  simp only [floor_eq]
  rw [abs_le]
  split
  · constructor <;> linarith
  · rename_i h
    have h3 := le_of_not_lt h
    split
    · push_cast; constructor <;> linarith
    · rename_i h'
      have h4 := le_of_not_lt h'
      split
      · constructor <;> linarith
      · push_cast; constructor <;> linarith

theorem roundHalfEven_tie_odd (f : Int) (hodd : f % 2 = 1) :
    roundHalfEven ((f : ℚ) + 1 / 2) = f + 1 := by
  have hf : ⌊(f : ℚ) + 1 / 2⌋ = f := by
    rw [Int.floor_eq_iff]
    constructor <;> norm_num
  unfold roundHalfEven
  simp only [floor_eq, hf]
  norm_num
  omega

theorem two_zpow_pos (p : Int) : (0 : ℚ) < 2 ^ p := by positivity

theorem ulpExponent_of_bounds (q : ℚ) (e : Int) (h1 : (2 : ℚ) ^ e ≤ |q|)
    (h2 : |q| < (2 : ℚ) ^ (e + 1)) : ulpExponent q = max e (-1022) - 52 := by
  have hpos : 0 < |q| := lt_of_lt_of_le (by positivity) h1
  have a : e ≤ Int.log 2 |q| := by
    rw [← Int.zpow_le_iff_le_log (by norm_num) hpos]
    exact_mod_cast h1
  have b : Int.log 2 |q| < e + 1 := by
    rw [← Int.lt_zpow_iff_log_lt (by norm_num) hpos]
    exact_mod_cast h2
  unfold ulpExponent
  rw [show Int.log 2 |q| = e by omega]

theorem ulpExponent_le (q : ℚ) (k : Nat) (hk : k ≤ 1074) (hq : q ≠ 0)
    (h : |q| < (2 : ℚ) ^ (53 - (k : Int))) : ulpExponent q ≤ -(k : Int) := by
  have hpos : 0 < |q| := abs_pos.2 hq
  have b : Int.log 2 |q| < 53 - (k : Int) := by
    rw [← Int.lt_zpow_iff_log_lt (by norm_num) hpos]
    exact_mod_cast h
  unfold ulpExponent
  omega

theorem roundDouble_of_intCast_div (q : ℚ) (m : Int) (h : q / 2 ^ ulpExponent q = (m : ℚ)) :
    roundDouble q = q := by
  unfold roundDouble
  split
  · rename_i h0; exact h0.symm
  · rw [h, roundHalfEven_intCast, ← h]
    exact div_mul_cancel₀ q (ne_of_gt (two_zpow_pos _))

theorem roundDouble_dyadic (n : Int) (k : Nat) (hk : k ≤ 1074) (hn : |n| < 2 ^ 53) :
    roundDouble ((n : ℚ) / 2 ^ k) = (n : ℚ) / 2 ^ k := by
  by_cases h0 : (n : ℚ) / 2 ^ k = 0
  · rw [h0]; simp [roundDouble]
  · have hlt : |(n : ℚ) / 2 ^ k| < (2 : ℚ) ^ (53 - (k : Int)) := by
      rw [abs_div, abs_of_pos (by positivity : (0 : ℚ) < 2 ^ k), zpow_sub₀ (by norm_num), zpow_natCast]
      apply div_lt_div_of_pos_right _ (by positivity)
      have : ((|n| : Int) : ℚ) < ((2 ^ 53 : Int) : ℚ) := by exact_mod_cast hn
      rw [Int.cast_abs] at this
      have e : (2 : ℚ) ^ (53 : Int) = ((2 ^ 53 : Int) : ℚ) := by norm_cast
      rw [e]
      exact this
    have hp := ulpExponent_le _ k hk h0 hlt
    obtain ⟨j, hj⟩ : ∃ j : Nat, ulpExponent ((n : ℚ) / 2 ^ k) = -(k : Int) - (j : Int) :=
      ⟨(-(k : Int) - ulpExponent ((n : ℚ) / 2 ^ k)).toNat, by omega⟩
    apply roundDouble_of_intCast_div _ (n * 2 ^ j)
    rw [hj, sub_eq_add_neg, zpow_add₀ (by norm_num), zpow_neg, zpow_neg, zpow_natCast, zpow_natCast]
    push_cast
    field_simp
    ring

theorem roundDouble_near (q : ℚ) : |roundDouble q - q| ≤ 2 ^ ulpExponent q / 2 := by
  unfold roundDouble
  split
  · rename_i h0
    rw [h0]
    simp
    positivity
  · have hpos := two_zpow_pos (ulpExponent q)
    have h := roundHalfEven_near (q / 2 ^ ulpExponent q)
    have e : (roundHalfEven (q / 2 ^ ulpExponent q) : ℚ) * 2 ^ ulpExponent q - q
        = ((roundHalfEven (q / 2 ^ ulpExponent q) : ℚ) - q / 2 ^ ulpExponent q) * 2 ^ ulpExponent q := by
      field_simp
    rw [e, abs_mul, abs_of_pos hpos]
    calc |(roundHalfEven (q / 2 ^ ulpExponent q) : ℚ) - q / 2 ^ ulpExponent q| * 2 ^ ulpExponent q
        ≤ 1 / 2 * 2 ^ ulpExponent q := mul_le_mul_of_nonneg_right h (le_of_lt hpos)
      _ = 2 ^ ulpExponent q / 2 := by ring

theorem roundDouble_bounds (d : ℚ) (W : Nat) (hW : W < 2 ^ 53) (h0 : 0 ≤ d) (h1 : d ≤ (W : ℚ)) :
    0 ≤ roundDouble d ∧ roundDouble d ≤ (W : ℚ) := by
  by_cases hd : d = 0
  · rw [hd]
    simp [roundDouble]
  · have hlt : |d| < (2 : ℚ) ^ (53 - ((0 : Nat) : Int)) := by
      rw [abs_of_nonneg h0]
      have : (W : ℚ) < 2 ^ 53 := by exact_mod_cast hW
      simp only [Nat.cast_zero, sub_zero]
      have e : (2 : ℚ) ^ (53 : Int) = 2 ^ 53 := by norm_cast
      rw [e]
      linarith
    have hp := ulpExponent_le d 0 (by norm_num) hd hlt
    obtain ⟨j, hj⟩ : ∃ j : Nat, ulpExponent d = -(j : Int) :=
      ⟨(-ulpExponent d).toNat, by omega⟩
    have hpos := two_zpow_pos (ulpExponent d)
    unfold roundDouble
    rw [if_neg hd]
    constructor
    · have := roundHalfEven_nonneg (d / 2 ^ ulpExponent d) (by positivity)
      have : (0 : ℚ) ≤ (roundHalfEven (d / 2 ^ ulpExponent d) : ℚ) := by exact_mod_cast this
      positivity
    · have hK : d / 2 ^ ulpExponent d ≤ (((W : Int) * 2 ^ j : Int) : ℚ) := by
        rw [div_le_iff₀ hpos, hj, zpow_neg, zpow_natCast]
        push_cast
        field_simp
        exact h1
      have := roundHalfEven_le _ _ hK
      have h2 : (roundHalfEven (d / 2 ^ ulpExponent d) : ℚ) ≤ (((W : Int) * 2 ^ j : Int) : ℚ) := by
        exact_mod_cast this
      calc (roundHalfEven (d / 2 ^ ulpExponent d) : ℚ) * 2 ^ ulpExponent d
          ≤ (((W : Int) * 2 ^ j : Int) : ℚ) * 2 ^ ulpExponent d :=
            mul_le_mul_of_nonneg_right h2 (le_of_lt hpos)
        _ = (W : ℚ) := by
            rw [hj, zpow_neg, zpow_natCast]
            push_cast
            field_simp

theorem roundDouble_eval (q : ℚ) (e m : Int) (hq : q ≠ 0) (h1 : (2 : ℚ) ^ e ≤ |q|)
    (h2 : |q| < (2 : ℚ) ^ (e + 1))
    (hm : roundHalfEven (q / 2 ^ (max e (-1022) - 52)) = m) :
    roundDouble q = (m : ℚ) * 2 ^ (max e (-1022) - 52) := by
  unfold roundDouble
  rw [if_neg hq, ulpExponent_of_bounds q e h1 h2, hm]

theorem numberSubtract_dyadic (a b : ℚ) (n : Int) (k : Nat) (hk : k ≤ 1074) (hn : |n| < 2 ^ 53)
    (h : a - b = (n : ℚ) / 2 ^ k) : numberSubtract a b = a - b := by
  unfold numberSubtract
  rw [h]
  exact roundDouble_dyadic n k hk hn

end MapAnnotation

/-! ## Coordinates -/

namespace MapAnnotation

/-- Claim C2, as stated, fails: with an image loaded, a click at
`clientX = 150`, `clientY = 200` on a canvas whose rectangle starts at
`left = 49.5 + 2 ^ (-47)` (the binary64 value written `49.50000000000001`),
`top = 80` stores `x = 101`, because the double-precision difference is
`100.5`; the exact difference is below `100.5` and rounds to `100`. -/
theorem double_subtraction_changes_stored_x :
    (handleImageClick
        { image := some { mediaType := "image/png", payload := "AAAA" }
          labels := []
          imgSize := { width := 300, height := 300 } }
        { clientX := 150, clientY := 200 } { left := 99 / 2 + 1 / 2 ^ 47, top := 80 }
        (some "A")).labels
      = [{ name := "A", x := 101, y := 120 }] ∧
      mathRound ((150 : ℚ) - (99 / 2 + 1 / 2 ^ 47)) = 100 ∧
      mathRound ((200 : ℚ) - 80) = 120 := by
  have hx : numberSubtract 150 (99 / 2 + 1 / 2 ^ 47) = 201 / 2 := by
    unfold numberSubtract
    have h := roundDouble_eval ((150 : ℚ) - (99 / 2 + 1 / 2 ^ 47)) 6 (201 * 2 ^ 45)
      (by norm_num) (by rw [abs_of_pos (by norm_num)]; norm_num)
      (by rw [abs_of_pos (by norm_num)]; norm_num)
      (by
        have e : ((150 : ℚ) - (99 / 2 + 1 / 2 ^ 47)) / 2 ^ (max (6 : Int) (-1022) - 52)
            = (((201 * 2 ^ 45 - 1 : Int)) : ℚ) + 1 / 2 := by
          norm_num [zpow_neg]
        rw [e, roundHalfEven_tie_odd _ (by norm_num)]
        norm_num)
    rw [h]
    norm_num [zpow_neg]
  have hy : numberSubtract 200 80 = 200 - 80 :=
    numberSubtract_dyadic 200 80 120 0 (by norm_num) (by norm_num) (by norm_num)
  refine ⟨?_, ?_, ?_⟩
  · rw [handleImageClick_add _ _ _ _ (by simp) (by decide)]
    simp only [hx, hy]
    have e1 : mathRound (201 / 2) = 101 := by
      rw [mathRound_eq_iff]
      norm_num
    have e2 : mathRound ((200 : ℚ) - 80) = 120 := by
      rw [mathRound_eq_iff]
      norm_num
    rw [e1, e2]
    rfl
  · rw [mathRound_eq_iff]
    norm_num
  · rw [mathRound_eq_iff]
    norm_num

/-- Claim C2, amended: in a state with an image loaded, a canvas click
answered with a non-empty name appends one label whose coordinates are the
integers `Math.round(dx)` and `Math.round(dy)`, where `dx` and `dy` are the
double-precision differences `clientX - rect.left` and `clientY - rect.top`:
each coordinate is the integer within one half of that difference (the upper
one on a tie), the difference is within half a unit in the last place of the
exact offset, and whenever the exact offset is itself a binary64 value
`n / 2 ^ k` with `|n| < 2 ^ 53` (every whole-number offset of that size is)
the coordinate is `Math.round` of the exact offset.  (The click at
`(150, 200)` with the rectangle corner at `(50, 80)` gives `(100, 120)`.) -/
theorem handleImageClick_stores_rounded_difference (s : SessionState) (event : MouseEvent)
    (rect : DOMRect) (name : String) (himg : s.image ≠ none) (hname : name ≠ "") :
    ∃ x y : Int,
      (handleImageClick s event rect (some name)).labels
          = s.labels ++ [{ name := name, x := x, y := y }] ∧
        x = mathRound (numberSubtract event.clientX rect.left) ∧
        y = mathRound (numberSubtract event.clientY rect.top) ∧
        (numberSubtract event.clientX rect.left - 1 / 2 < (x : ℚ) ∧
          (x : ℚ) ≤ numberSubtract event.clientX rect.left + 1 / 2) ∧
        (numberSubtract event.clientY rect.top - 1 / 2 < (y : ℚ) ∧
          (y : ℚ) ≤ numberSubtract event.clientY rect.top + 1 / 2) ∧
        |numberSubtract event.clientX rect.left - (event.clientX - rect.left)|
          ≤ 2 ^ ulpExponent (event.clientX - rect.left) / 2 ∧
        |numberSubtract event.clientY rect.top - (event.clientY - rect.top)|
          ≤ 2 ^ ulpExponent (event.clientY - rect.top) / 2 ∧
        (∀ (n : Int) (k : Nat), k ≤ 1074 → |n| < 2 ^ 53 →
          event.clientX - rect.left = (n : ℚ) / 2 ^ k →
            x = mathRound (event.clientX - rect.left)) ∧
        (∀ (n : Int) (k : Nat), k ≤ 1074 → |n| < 2 ^ 53 →
          event.clientY - rect.top = (n : ℚ) / 2 ^ k →
            y = mathRound (event.clientY - rect.top)) := by
  refine ⟨mathRound (numberSubtract event.clientX rect.left),
    mathRound (numberSubtract event.clientY rect.top), ?_, rfl, rfl,
    ⟨mathRound_gt _, mathRound_le _⟩, ⟨mathRound_gt _, mathRound_le _⟩,
    roundDouble_near _, roundDouble_near _, ?_, ?_⟩
  · rw [handleImageClick_add s event rect name himg hname]
  · intro n k hk hn h
    rw [numberSubtract_dyadic _ _ n k hk hn h]
  · intro n k hk hn h
    rw [numberSubtract_dyadic _ _ n k hk hn h]

theorem handleImageClick_stores_rounded_difference_witness :
    (handleImageClick
        { image := some { mediaType := "image/png", payload := "AAAA" }
          labels := []
          imgSize := { width := 300, height := 300 } }
        { clientX := 150, clientY := 200 } { left := 50, top := 80 } (some "A")).labels
      = [{ name := "A", x := 100, y := 120 }] := by
  obtain ⟨x, y, hl, _, _, _, _, _, _, hx, hy⟩ :=
    handleImageClick_stores_rounded_difference
      { image := some { mediaType := "image/png", payload := "AAAA" }
        labels := []
        imgSize := { width := 300, height := 300 } }
      { clientX := 150, clientY := 200 } { left := 50, top := 80 } "A" (by simp) (by decide)
  have ex : x = 100 := by
    rw [hx 100 0 (by norm_num) (by norm_num) (by norm_num), mathRound_eq_iff]
    norm_num
  have ey : y = 120 := by
    rw [hy 120 0 (by norm_num) (by norm_num) (by norm_num), mathRound_eq_iff]
    norm_num
  rw [hl, ex, ey]
  rfl

/-! ## Bounds of stored labels -/

theorem handleImageClick_keeps_imgSize (s : SessionState) (event : MouseEvent) (rect : DOMRect)
    (answer : Option String) : (handleImageClick s event rect answer).imgSize = s.imgSize := by
  unfold handleImageClick
  split
  · rfl
  · cases answer with
    | none => rfl
    | some labelName =>
      simp only []
      split <;> rfl

theorem handleImageClick_labels_cases (s : SessionState) (event : MouseEvent) (rect : DOMRect)
    (answer : Option String) :
    (handleImageClick s event rect answer).labels = s.labels ∨
      ∃ name, (handleImageClick s event rect answer).labels
        = s.labels ++ [{ name := name
                         x := mathRound (numberSubtract event.clientX rect.left)
                         y := mathRound (numberSubtract event.clientY rect.top) }] := by
  unfold handleImageClick
  split
  · exact Or.inl rfl
  · cases answer with
    | none => exact Or.inl rfl
    | some labelName =>
      simp only []
      split
      · exact Or.inl rfl
      · exact Or.inr ⟨labelName, rfl⟩

theorem numberSubtract_bounds (a b : ℚ) (W : Nat) (hW : W < 2 ^ 32) (h0 : 0 ≤ a - b)
    (h1 : a - b < (W : ℚ)) : 0 ≤ numberSubtract a b ∧ numberSubtract a b ≤ (W : ℚ) :=
  roundDouble_bounds (a - b) W (by omega) h0 (le_of_lt h1)

theorem withinClosed_of_inHitRegion (s : SessionState) (event : MouseEvent) (rect : DOMRect)
    (name : String) (hsize : s.imgSize.inRange) (hin : inHitRegion s event rect) :
    Label.withinClosed s.imgSize
      { name := name
        x := mathRound (numberSubtract event.clientX rect.left)
        y := mathRound (numberSubtract event.clientY rect.top) } := by
  obtain ⟨hx0, hx1, hy0, hy1⟩ := hin
  obtain ⟨a0, a1⟩ := numberSubtract_bounds _ _ _ hsize.1 hx0 hx1
  obtain ⟨b0, b1⟩ := numberSubtract_bounds _ _ _ hsize.2 hy0 hy1
  obtain ⟨a, b, _⟩ := mathRound_bounds _ _ a0 a1
  obtain ⟨c, d, _⟩ := mathRound_bounds _ _ b0 b1
  exact ⟨a, b, c, d⟩

theorem step_preserves_withinClosed (s : SessionState) (e : Event)
    (hsize : s.imgSize.inRange)
    (hinv : ∀ l ∈ s.labels, Label.withinClosed s.imgSize l)
    (hadm : e.admissible s) :
    (step s e).imgSize.inRange ∧
      ∀ l ∈ (step s e).labels, Label.withinClosed (step s e).imgSize l := by
  cases e with
  | upload file =>
    simp only [step]
    unfold handleUpload
    cases file with
    | none => exact ⟨hsize, hinv⟩
    | some f =>
      simp only []
      split
      · cases hdec : f.decoded with
        | none => exact ⟨hsize, hinv⟩
        | some sz =>
          refine ⟨hadm sz hdec, ?_⟩
          intro l hl
          simp [imgOnload] at hl
      · exact ⟨hsize, hinv⟩
  | canvasClick event rect answer =>
    simp only [step]
    rw [handleImageClick_keeps_imgSize]
    refine ⟨hsize, ?_⟩
    rcases handleImageClick_labels_cases s event rect answer with h | ⟨name, h⟩
    · rw [h]
      exact hinv
    · rw [h]
      intro l hl
      rcases List.mem_append.1 hl with hl | hl
      · exact hinv l hl
      · rw [List.mem_singleton] at hl
        rw [hl]
        exact withinClosed_of_inHitRegion s event rect name hsize hadm
  | labelClick index confirmed =>
    simp only [step]
    cases confirmed with
    | false => exact ⟨hsize, hinv⟩
    | true =>
      refine ⟨hsize, ?_⟩
      intro l hl
      rw [handleLabelClick_labels] at hl
      exact hinv l ((List.eraseIdx_sublist _ _).subset hl)

theorem run_preserves_withinClosed (events : List Event) :
    ∀ s : SessionState, s.imgSize.inRange → (∀ l ∈ s.labels, Label.withinClosed s.imgSize l) →
      admissible s events → ∀ l ∈ (run s events).labels, Label.withinClosed (run s events).imgSize l := by
  induction events with
  | nil => intro s _ hinv _; exact hinv
  | cons e es ih =>
    intro s hsize hinv hadm
    obtain ⟨h1, h2⟩ := step_preserves_withinClosed s e hsize hinv hadm.1
    exact ih (step s e) h1 h2 hadm.2

/-- Claim C3, as stated, fails: with a `100` by `50` image loaded, a click at
`clientX = 150`, `clientY = 100` on a canvas whose rectangle starts at
`left = 50.5`, `top = 80` has the offset `(99.5, 20)`, inside
`[0, 100) × [0, 50)`, and the label stored is at `x = 100`, which is not
below the width. -/
theorem half_pixel_click_reaches_width :
    ({ image := some { mediaType := "image/png", payload := "AAAA" }
       labels := []
       imgSize := { width := 100, height := 50 } } : SessionState).image ≠ none ∧
      inHitRegion
        { image := some { mediaType := "image/png", payload := "AAAA" }
          labels := []
          imgSize := { width := 100, height := 50 } }
        { clientX := 150, clientY := 100 } { left := 101 / 2, top := 80 } ∧
      (handleImageClick
          { image := some { mediaType := "image/png", payload := "AAAA" }
            labels := []
            imgSize := { width := 100, height := 50 } }
          { clientX := 150, clientY := 100 } { left := 101 / 2, top := 80 } (some "A")).labels
        = [{ name := "A", x := 100, y := 20 }] ∧
      ¬ ∀ l ∈ (handleImageClick
          { image := some { mediaType := "image/png", payload := "AAAA" }
            labels := []
            imgSize := { width := 100, height := 50 } }
          { clientX := 150, clientY := 100 } { left := 101 / 2, top := 80 } (some "A")).labels,
        Label.withinImage { width := 100, height := 50 } l := by
  have sx : numberSubtract 150 (101 / 2) = 150 - 101 / 2 :=
    numberSubtract_dyadic 150 (101 / 2) 199 1 (by norm_num) (by norm_num) (by norm_num)
  have sy : numberSubtract 100 80 = 100 - 80 :=
    numberSubtract_dyadic 100 80 20 0 (by norm_num) (by norm_num) (by norm_num)
  have hx : mathRound ((150 : ℚ) - 101 / 2) = 100 := by
    rw [mathRound_eq_iff]
    norm_num
  have hy : mathRound ((100 : ℚ) - 80) = 20 := by
    rw [mathRound_eq_iff]
    norm_num
  have hl : (handleImageClick
      { image := some { mediaType := "image/png", payload := "AAAA" }
        labels := []
        imgSize := { width := 100, height := 50 } }
      { clientX := 150, clientY := 100 } { left := 101 / 2, top := 80 } (some "A")).labels
        = [{ name := "A", x := 100, y := 20 }] := by
    rw [handleImageClick_add _ _ _ _ (by simp) (by decide)]
    simp only [sx, sy, hx, hy]
    rfl
  refine ⟨by simp, ?_, hl, ?_⟩
  · unfold inHitRegion
    norm_num
  · rw [hl]
    intro h
    have h2 := (h _ (List.mem_singleton.2 rfl)).2.1
    simp at h2

/-- Claim C3, amended: for every loaded image of width `W` and height `H`
(in the unsigned 32-bit range of `img.width` and `img.height`) and every
canvas click, answered with a non-empty name, whose offset from the canvas
corner lies in `[0, W) × [0, H)`, the label appended has `0 ≤ x ≤ W` and
`0 ≤ y ≤ H`, with `x < W` when the offset as computed in double precision is
below `W - 1/2` and `y < H` when it is below `H - 1/2`; hence in every state
reached from the initial one by admissible events every stored label lies in
the closed box `[0, W] × [0, H]` of the image it was created on. -/
theorem labels_within_closed_bounds :
    (∀ (s : SessionState) (event : MouseEvent) (rect : DOMRect) (name : String),
      s.image ≠ none → name ≠ "" → s.imgSize.inRange → inHitRegion s event rect →
        ∃ l : Label,
          (handleImageClick s event rect (some name)).labels = s.labels ++ [l] ∧
            Label.withinClosed s.imgSize l ∧
            (numberSubtract event.clientX rect.left < (s.imgSize.width : ℚ) - 1 / 2 →
              l.x < (s.imgSize.width : Int)) ∧
            (numberSubtract event.clientY rect.top < (s.imgSize.height : ℚ) - 1 / 2 →
              l.y < (s.imgSize.height : Int))) ∧
      ∀ events : List Event, admissible initialState events →
        ∀ l ∈ (run initialState events).labels,
          Label.withinClosed (run initialState events).imgSize l := by
  constructor
  · intro s event rect name himg hname hsize hin
    refine ⟨_, by rw [handleImageClick_add s event rect name himg hname],
      withinClosed_of_inHitRegion s event rect name hsize hin, ?_, ?_⟩
    · obtain ⟨a0, a1⟩ := numberSubtract_bounds _ _ _ hsize.1 hin.1 hin.2.1
      exact (mathRound_bounds _ _ a0 a1).2.2
    · obtain ⟨b0, b1⟩ := numberSubtract_bounds _ _ _ hsize.2 hin.2.2.1 hin.2.2.2
      exact (mathRound_bounds _ _ b0 b1).2.2
  · intro events hadm
    exact run_preserves_withinClosed events initialState ⟨by decide, by decide⟩
      (by intro l hl; cases hl) hadm

theorem labels_within_closed_bounds_witness :
    ∃ l : Label,
      (handleImageClick
          { image := some { mediaType := "image/png", payload := "AAAA" }
            labels := [{ name := "A", x := 100, y := 20 }]
            imgSize := { width := 100, height := 50 } }
          { clientX := 60, clientY := 90 } { left := 101 / 2, top := 80 } (some "B")).labels
        = [{ name := "A", x := 100, y := 20 }] ++ [l] ∧
        Label.withinClosed { width := 100, height := 50 } l :=
  have h :=
    labels_within_closed_bounds.1
      { image := some { mediaType := "image/png", payload := "AAAA" }
        labels := [{ name := "A", x := 100, y := 20 }]
        imgSize := { width := 100, height := 50 } }
      { clientX := 60, clientY := 90 } { left := 101 / 2, top := 80 } "B"
      (by simp) (by decide) ⟨by decide, by decide⟩
      (by unfold inHitRegion; norm_num)
  h.elim fun l hl => ⟨l, hl.1, hl.2.1⟩

/-! ## Sequences of adds -/

theorem addAll_eq (clicks : List Click) :
    ∀ s : SessionState, s.image ≠ none → (∀ c ∈ clicks, c.name ≠ "") →
      addAll s clicks = { s with labels := s.labels ++ clicks.map Click.label } := by
  induction clicks with
  | nil => intro s _ _; simp [addAll]
  | cons c cs ih =>
    intro s himg hnames
    have hc : c.name ≠ "" := hnames c (List.mem_cons_self _ _)
    have hcs : ∀ c' ∈ cs, c'.name ≠ "" := fun c' h => hnames c' (List.mem_cons_of_mem _ h)
    have hstep := handleImageClick_add s c.event c.rect c.name himg hc
    have e : addAll s (c :: cs) = addAll (handleImageClick s c.event c.rect (some c.name)) cs := rfl
    have hnext := ih (handleImageClick s c.event c.rect (some c.name))
      (by rw [hstep]; exact himg) hcs
    rw [e, hnext, hstep]
    simp [Click.label]

/-- Claim C8: starting from a state with an image loaded and an empty label
list, after `N` canvas clicks each answered with a non-empty name (distinct
or not) the label list has length `N`, its `k`-th element is the label
`{ name, x, y }` made by the `k`-th click, and the `k`-th click appended that
label at the end of the list left by the clicks before it. -/
theorem adds_in_insertion_order (s : SessionState) (clicks : List Click)
    (himg : s.image ≠ none) (hempty : s.labels = []) (hnames : ∀ c ∈ clicks, c.name ≠ "") :
    (addAll s clicks).labels.length = clicks.length ∧
      (∀ (k : Nat) (c : Click), clicks[k]? = some c → (addAll s clicks).labels[k]? = some c.label) ∧
      (∀ (k : Nat) (c : Click), clicks[k]? = some c →
        (addAll s (clicks.take (k + 1))).labels = (addAll s (clicks.take k)).labels ++ [c.label]) := by
  refine ⟨?_, ?_, ?_⟩
  · rw [addAll_eq clicks s himg hnames]
    simp [hempty]
  · intro k c hk
    rw [addAll_eq clicks s himg hnames]
    simp [hempty, hk]
  · intro k c hk
    have h1 : ∀ c' ∈ clicks.take (k + 1), c'.name ≠ "" :=
      fun c' h => hnames c' (List.mem_of_mem_take h)
    have h2 : ∀ c' ∈ clicks.take k, c'.name ≠ "" :=
      fun c' h => hnames c' (List.mem_of_mem_take h)
    rw [addAll_eq _ s himg h1, addAll_eq _ s himg h2]
    simp [hempty, List.take_succ, hk]

theorem adds_in_insertion_order_witness :
    (addAll
        { image := some { mediaType := "image/png", payload := "AAAA" }
          labels := []
          imgSize := { width := 300, height := 300 } }
        [ { event := { clientX := 150, clientY := 200 }, rect := { left := 50, top := 80 }, name := "A" }
        , { event := { clientX := 60, clientY := 90 }, rect := { left := 50, top := 80 }, name := "B" } ]).labels.length
      = 2 :=
  (adds_in_insertion_order
    { image := some { mediaType := "image/png", payload := "AAAA" }
      labels := []
      imgSize := { width := 300, height := 300 } }
    [ { event := { clientX := 150, clientY := 200 }, rect := { left := 50, top := 80 }, name := "A" }
    , { event := { clientX := 60, clientY := 90 }, rect := { left := 50, top := 80 }, name := "B" } ]
    (by simp) rfl (by
      intro c hc
      simp only [List.mem_cons, List.mem_singleton, List.not_mem_nil, or_false] at hc
      rcases hc with rfl | rfl <;> decide)).1

end MapAnnotation
